import Mathlib

/-! # tmux-selector: a shallow embedding of `main.go`

The Go program reads a pane listing from tmux, parses it into pane records,
picks a pane either by a recency scan or by an interactive cursor loop, and
prints the chosen pane.  This file embeds the pure part of that program:

* `getTmuxPanes`            : the parser of the listing text (main.go 116-155);
* `findMostRecentPane`      : the recency scan returning a record (main.go 157-176);
* `findMostRecentPaneIndex` : the recency scan returning an index (main.go 239-257);
* `interactivePaneSelector` : the cursor loop, as a step function on events
  (main.go 178-237);
* `runSelector` and `main`  : the run as a function of what it reads from
  outside (main.go 46-105).

Conventions.  A Go string is a `GoString`, the list of its code points (the
program only ever splits on the one-byte separators `|` and newline and trims
white space, which act alike on bytes and on code points of well-formed
UTF-8).  `uint64` values are natural numbers, with the reduction modulo `2^64`
written out where the Go code can wrap.  `int` values are integers; the only
`int` arithmetic of the program is on a cursor and a slice length, which are
far below `2^62`, so no wrap can occur there.  A run-time panic is an explicit
outcome.
-/

namespace TmuxSelector

/-- A Go string, as the list of its code points. -/
abbrev GoString := List Char

/-! ## The Go standard library functions used by the program -/

/-- Go `unicode.IsSpace`: the Latin-1 spaces listed in its documentation and the
other code points with the Unicode White_Space property. -/
def unicode.IsSpace (c : Char) : Bool :=
  let n := c.toNat
  n == 0x09 || n == 0x0A || n == 0x0B || n == 0x0C || n == 0x0D || n == 0x20 ||
  n == 0x85 || n == 0xA0 || n == 0x1680 || (0x2000 ≤ n && n ≤ 0x200A) ||
  n == 0x2028 || n == 0x2029 || n == 0x202F || n == 0x205F || n == 0x3000

/-- Go `strings.TrimLeftFunc`: the string without its leading characters that
satisfy `f`. -/
def strings.TrimLeftFunc (s : GoString) (f : Char → Bool) : GoString :=
  s.dropWhile f

/-- Go `strings.TrimRightFunc`: the string without its trailing characters
that satisfy `f`. -/
def strings.TrimRightFunc (s : GoString) (f : Char → Bool) : GoString :=
  (s.reverse.dropWhile f).reverse

/-- Go `strings.TrimSpace`: the string without its leading and trailing white
space, `TrimFunc(s, unicode.IsSpace)`. -/
def strings.TrimSpace (s : GoString) : GoString :=
  strings.TrimRightFunc (strings.TrimLeftFunc s unicode.IsSpace) unicode.IsSpace

/-- Go `strings.Split s sep` for a separator of one character: the pieces of
`s` between the occurrences of `sep`; the empty string gives one empty piece. -/
def strings.Split : GoString → Char → List GoString
  | [], _ => [[]]
  | c :: cs, sep =>
    if c = sep then [] :: strings.Split cs sep
    else
      match strings.Split cs sep with
      | [] => [[c]]
      | p :: ps => (c :: p) :: ps

/-- The error kinds of Go `strconv.ParseUint`. -/
inductive strconv.NumError
  | ErrBadDigits
  | ErrRange
deriving DecidableEq, Repr

/-- The largest `uint64`. -/
def strconv.maxUint64 : Nat := 2 ^ 64 - 1

/-- The digit loop of Go `strconv.ParseUint` for base 10 and bit size 64, with
`n` the `uint64` accumulated so far.  A byte that is not a decimal digit ends
the loop with value 0; an overflow ends it at once with the largest `uint64`. -/
def strconv.ParseUint.loop : GoString → Nat → Nat × Option strconv.NumError
  | [], n => (n, none)
  | c :: cs, n =>
    if c.toNat < 48 ∨ 57 < c.toNat then (0, some .ErrBadDigits)
    else
      let d := c.toNat - 48
      -- cutoff: the smallest number such that cutoff*10 > maxUint64
      if n ≥ strconv.maxUint64 / 10 + 1 then (strconv.maxUint64, some .ErrRange)
      else
        let n10 := (n * 10) % 2 ^ 64
        let n1 := (n10 + d) % 2 ^ 64
        if n1 < n10 ∨ n1 > strconv.maxUint64 then (strconv.maxUint64, some .ErrRange)
        else strconv.ParseUint.loop cs n1

/-- Go `strconv.ParseUint s 10 64`: the value and the error, if any. -/
def strconv.ParseUint (s : GoString) : Nat × Option strconv.NumError :=
  if s = [] then (0, some .ErrBadDigits) else strconv.ParseUint.loop s 0

/-! ## The data model -/

/-- The record `TmuxPane` of main.go. -/
structure TmuxPane where
  SessionName : GoString
  WindowIndex : GoString
  PaneIndex : GoString
  PaneTitle : GoString
  LastUsed : Nat
  IsActive : Bool
  FullID : GoString
deriving DecidableEq, Repr

/-- The error of a failed external command. -/
structure ExecError where
  msg : GoString
deriving DecidableEq, Repr

/-! ## getTmuxPanes -/

/-- The body of the loop `for _, line := range lines` of `getTmuxPanes` up to
the construction of `pane`: `none` when the iteration ends in `continue`. -/
def getTmuxPanes.parseLine (line : GoString) : Option TmuxPane :=
  if line = [] then none
  else
    let parts := strings.Split line '|'
    if parts.length < 6 then none
    else
      let lastUsed := (strconv.ParseUint (parts.getD 4 [])).1
      let isActive := decide (parts.getD 5 [] = ['1'])
      let fullID := parts.getD 0 [] ++ [':'] ++ parts.getD 1 [] ++ ['.'] ++ parts.getD 2 []
      some
        { SessionName := parts.getD 0 []
          WindowIndex := parts.getD 1 []
          PaneIndex := parts.getD 2 []
          PaneTitle := parts.getD 3 []
          LastUsed := lastUsed
          IsActive := isActive
          FullID := fullID }

/-- One iteration of the loop `for _, line := range lines` of `getTmuxPanes`:
`panes` is the slice built so far, the result is the slice after the
iteration (`panes = append(panes, pane)` unless the iteration ended in
`continue`). -/
def getTmuxPanes.iter (panes : List TmuxPane) (line : GoString) : List TmuxPane :=
  match getTmuxPanes.parseLine line with
  | none => panes
  | some pane => panes ++ [pane]

/-- The function `getTmuxPanes` of main.go, as a function of the result
`output` of running the listing command. -/
def getTmuxPanes (output : Except ExecError GoString) : Except ExecError (List TmuxPane) :=
  match output with
  | .error err => .error err
  | .ok out =>
    let lines := strings.Split (strings.TrimSpace out) '\n'
    .ok (lines.foldl getTmuxPanes.iter [])

/-- The function `getCurrentPaneID` of main.go, as a function of the result
`output` of running the current-pane command: the pair it returns. -/
def getCurrentPaneID (output : Except ExecError GoString) : GoString × Option ExecError :=
  match output with
  | .error err => ([], some err)
  | .ok out => (strings.TrimSpace out, none)

/-! ## findMostRecentPane and findMostRecentPaneIndex -/

/-- The loop `for i := range panes` of `findMostRecentPane` on the panes not
yet visited, with the current values of `bestPane` and `bestTime`. -/
def findMostRecentPane.scan (currentPaneID : GoString) :
    List TmuxPane → Option TmuxPane → Nat → Option TmuxPane
  | [], bestPane, _ => bestPane
  | pane :: rest, bestPane, bestTime =>
    if pane.FullID = currentPaneID then
      findMostRecentPane.scan currentPaneID rest bestPane bestTime
    else if pane.IsActive ∨ pane.LastUsed > bestTime then
      findMostRecentPane.scan currentPaneID rest (some pane) pane.LastUsed
    else
      findMostRecentPane.scan currentPaneID rest bestPane bestTime

/-- The function `findMostRecentPane` of main.go; `none` is the nil pointer. -/
def findMostRecentPane (panes : List TmuxPane) (currentPaneID : GoString) : Option TmuxPane :=
  findMostRecentPane.scan currentPaneID panes none 0

/-- The loop `for i, pane := range panes` of `findMostRecentPaneIndex` on the
panes not yet visited: `i` is the index of the next pane, `bestIndex` and
`bestTime` are the current values of the two variables. -/
def findMostRecentPaneIndex.scan (currentPaneID : GoString) :
    List TmuxPane → Int → Int → Nat → Int
  | [], _, bestIndex, _ => bestIndex
  | pane :: rest, i, bestIndex, bestTime =>
    if pane.FullID = currentPaneID then
      findMostRecentPaneIndex.scan currentPaneID rest (i + 1) bestIndex bestTime
    else if pane.IsActive ∨ pane.LastUsed > bestTime then
      findMostRecentPaneIndex.scan currentPaneID rest (i + 1) i pane.LastUsed
    else
      findMostRecentPaneIndex.scan currentPaneID rest (i + 1) bestIndex bestTime

/-- The function `findMostRecentPaneIndex` of main.go. -/
def findMostRecentPaneIndex (panes : List TmuxPane) (currentPaneID : GoString) : Int :=
  findMostRecentPaneIndex.scan currentPaneID panes 0 (-1) 0

/-! ## interactivePaneSelector -/

/-- The key codes of tcell that the event loop names, which Go requires to be
pairwise distinct as cases of one switch, and every other key code. -/
inductive tcell.Key
  | KeyUp
  | KeyDown
  | KeyLeft
  | KeyRight
  | KeyCtrlC
  | KeyCtrlH
  | KeyCtrlJ
  | KeyCtrlK
  | KeyCtrlL
  | KeyEnter
  | KeyEscape
  | KeyRune
  | otherKey (code : Nat)
deriving DecidableEq, Repr

/-- The events `screen.PollEvent` can deliver: a key event with its key code
and its rune, a resize event, or any other event (nil included). -/
inductive tcell.Event
  | EventKey (key : tcell.Key) (rune : Char)
  | EventResize
  | otherEvent
deriving DecidableEq, Repr

/-- Where the event loop of `interactivePaneSelector` stands: still in the loop
with cursor `selectedIndex`, returned with a pane pointer (`none` is nil) and
an error, or stopped by a run-time panic. -/
inductive LoopState
  | Browsing (selectedIndex : Int)
  | Returned (pane : Option TmuxPane) (err : Option ExecError)
  | Panic
deriving DecidableEq, Repr

/-- The assignment `selectedIndex = (selectedIndex - 1 + len(panes)) % len(panes)`;
Go's `%` truncates and panics on a zero divisor. -/
def interactivePaneSelector.movePrev (panes : List TmuxPane) (selectedIndex : Int) : LoopState :=
  if (panes.length : Int) = 0 then .Panic
  else .Browsing ((selectedIndex - 1 + panes.length).tmod panes.length)

/-- The assignment `selectedIndex = (selectedIndex + 1) % len(panes)`. -/
def interactivePaneSelector.moveNext (panes : List TmuxPane) (selectedIndex : Int) : LoopState :=
  if (panes.length : Int) = 0 then .Panic
  else .Browsing ((selectedIndex + 1).tmod panes.length)

/-- The statement `return &panes[selectedIndex], nil`; indexing outside the
slice panics. -/
def interactivePaneSelector.accept (panes : List TmuxPane) (selectedIndex : Int) : LoopState :=
  if 0 ≤ selectedIndex ∧ selectedIndex < panes.length then
    match panes[selectedIndex.toNat]? with
    | some pane => .Returned (some pane) none
    | none => .Panic
  else .Panic

/-- One turn of the event loop of `interactivePaneSelector`: the switch on the
event `ev` polled with cursor `selectedIndex`. -/
def interactivePaneSelector.step (panes : List TmuxPane) (selectedIndex : Int) :
    tcell.Event → LoopState
  | .EventKey key rune =>
    match key with
    | .KeyUp | .KeyCtrlK => interactivePaneSelector.movePrev panes selectedIndex
    | .KeyDown | .KeyCtrlJ => interactivePaneSelector.moveNext panes selectedIndex
    | .KeyLeft | .KeyCtrlH => interactivePaneSelector.movePrev panes selectedIndex
    | .KeyRight | .KeyCtrlL => interactivePaneSelector.moveNext panes selectedIndex
    | .KeyEnter => interactivePaneSelector.accept panes selectedIndex
    | .KeyEscape | .KeyCtrlC => .Returned none none
    | .KeyRune =>
      if rune = 'w' ∨ rune = 'W' ∨ rune = 'k' ∨ rune = 'K' then
        interactivePaneSelector.movePrev panes selectedIndex
      else if rune = 's' ∨ rune = 'S' ∨ rune = 'j' ∨ rune = 'J' then
        interactivePaneSelector.moveNext panes selectedIndex
      else if rune = 'a' ∨ rune = 'A' ∨ rune = 'h' ∨ rune = 'H' then
        interactivePaneSelector.movePrev panes selectedIndex
      else if rune = 'd' ∨ rune = 'D' ∨ rune = 'l' ∨ rune = 'L' then
        interactivePaneSelector.moveNext panes selectedIndex
      else if rune = 'q' ∨ rune = 'Q' then .Returned none none
      else .Browsing selectedIndex
    | .otherKey _ => .Browsing selectedIndex
  | .EventResize => .Browsing selectedIndex
  | .otherEvent => .Browsing selectedIndex

/-- The event loop of `interactivePaneSelector` run on the events delivered so
far: it stays `Browsing` when the events run out before it returns. -/
def interactivePaneSelector.loop (panes : List TmuxPane) : Int → List tcell.Event → LoopState
  | selectedIndex, [] => .Browsing selectedIndex
  | selectedIndex, ev :: evs =>
    match interactivePaneSelector.step panes selectedIndex ev with
    | .Browsing next => interactivePaneSelector.loop panes next evs
    | .Returned pane err => .Returned pane err
    | .Panic => .Panic

/-- The initial value of `selectedIndex` in `interactivePaneSelector`
(main.go 191-195). -/
def interactivePaneSelector.initialIndex (panes : List TmuxPane) (currentPaneID : GoString) : Int :=
  let idx := findMostRecentPaneIndex panes currentPaneID
  if idx ≥ 0 then idx else 0

/-- The function `interactivePaneSelector` of main.go, as a function of the
error `screenErr` of opening the screen (if any), of the result `paneQuery` of
the current-pane command and of the events delivered. -/
def interactivePaneSelector (screenErr : Option ExecError) (paneQuery : Except ExecError GoString)
    (panes : List TmuxPane) (events : List tcell.Event) : LoopState :=
  match screenErr with
  | some err => .Returned none (some err)
  | none =>
    let currentPaneID := (getCurrentPaneID paneQuery).1
    interactivePaneSelector.loop panes
      (interactivePaneSelector.initialIndex panes currentPaneID) events

/-! ## runSelector and main -/

/-- What a run reads from outside the program: the value of the environment
variable `TMUX`, the result of the pane-listing command, the result of the
current-pane command, the error of opening the screen (if any), the events
the screen delivers, and the two flags. -/
structure RunInput where
  tmuxEnv : GoString
  listing : Except ExecError GoString
  paneQuery : Except ExecError GoString
  screenErr : Option ExecError
  events : List tcell.Event
  autoSelect : Bool
  outputFormat : GoString

/-- The line a successful run prints on standard output: the full identifier
of the chosen pane, or the JSON encoding of its record (kept as the record;
`json.Marshal` cannot fail on a `TmuxPane`). -/
inductive Stdout
  | plain (fullID : GoString)
  | json (pane : TmuxPane)
deriving DecidableEq, Repr

/-- How `runSelector` ends: it returns an error with message `msg`, it prints
`line` and returns nil, it is still waiting for an event with cursor
`selectedIndex`, or it panics. -/
inductive RunResult
  | Err (msg : GoString)
  | Ok (line : Stdout)
  | Waiting (selectedIndex : Int)
  | Panic
deriving DecidableEq, Repr

/-- The end of `runSelector` (main.go 92-104): the switch on `outputFormat`. -/
def runSelector.output (outputFormat : GoString) (selectedPane : TmuxPane) : RunResult :=
  if outputFormat = "json".toList then .Ok (.json selectedPane)
  else .Ok (.plain selectedPane.FullID)

/-- The function `runSelector` of main.go. -/
def runSelector (input : RunInput) : RunResult :=
  if input.tmuxEnv = [] then .Err "Not running in tmux".toList
  else
    match getTmuxPanes input.listing with
    | .error err => .Err ("Failed to get tmux panes: ".toList ++ err.msg)
    | .ok panes =>
      if panes.length = 0 then .Err "No tmux panes found".toList
      else if input.autoSelect then
        match getCurrentPaneID input.paneQuery with
        | (_, some err) => .Err ("Failed to get current pane ID: ".toList ++ err.msg)
        | (currentPaneID, none) =>
          match findMostRecentPane panes currentPaneID with
          | none => .Err "No suitable pane found for auto-selection".toList
          | some selectedPane => runSelector.output input.outputFormat selectedPane
      else
        match interactivePaneSelector input.screenErr input.paneQuery panes input.events with
        | .Returned _ (some err) => .Err err.msg
        | .Returned none none => .Err "Pane selection cancelled".toList
        | .Returned (some selectedPane) none =>
          runSelector.output input.outputFormat selectedPane
        | .Browsing selectedIndex => .Waiting selectedIndex
        | .Panic => .Panic

/-- How the process ends: it exits with what it wrote on standard output and
on the error stream and with its exit status, it is still waiting for an
event, or it died of a panic. -/
inductive ProcessResult
  | Exited (stdout : Option Stdout) (stderr : Option GoString) (status : Nat)
  | Waiting
  | Panicked
deriving DecidableEq, Repr

/-- The function `main` of main.go: an error of `runSelector` is written on the
error stream and the process exits with status 1. -/
def main (input : RunInput) : ProcessResult :=
  match runSelector input with
  | .Err msg => .Exited none (some ("Error: ".toList ++ msg ++ ['\n'])) 1
  | .Ok line => .Exited (some line) none 0
  | .Waiting _ => .Waiting
  | .Panic => .Panicked

/-! ## Definitions used to state the properties -/

/-- The algorithm `selectBest` as section 4.3 of the specification writes it:
one visit of the scan, on the pane at index `i`. -/
def selectBest.visit (excludeIdentifier : GoString) (st : Option Nat × Nat)
    (ip : Nat × TmuxPane) : Option Nat × Nat :=
  if ip.2.FullID = excludeIdentifier then st
  else if ip.2.IsActive = true ∨ ip.2.LastUsed > st.2 then (some ip.1, ip.2.LastUsed)
  else st

/-- The algorithm `selectBest` as section 4.3 of the specification writes it:
start from `bestIndex = none` and `bestTime = 0`, visit the panes with their
indices from left to right, return `bestIndex`. -/
def selectBest (snapshot : List TmuxPane) (excludeIdentifier : GoString) : Option Nat :=
  (snapshot.enum.foldl (selectBest.visit excludeIdentifier) (none, 0)).1

/-- Scenario A of the specification. -/
def scenarioA : List TmuxPane :=
  [ ⟨"main".toList, "0".toList, "0".toList, "bash".toList, 1000, false, "main:0.0".toList⟩,
    ⟨"main".toList, "0".toList, "1".toList, "vim".toList, 2000, true, "main:0.1".toList⟩,
    ⟨"main".toList, "1".toList, "0".toList, "bash".toList, 500, false, "main:1.0".toList⟩ ]

/-- The integer by which the Go code represents an optional index: `-1` is
none. -/
def encodeIndex : Option Nat → Int
  | none => -1
  | some i => (i : Int)

/-- The move-backward inputs of section 4.4 of the specification: up, left,
and the letters w, k, a, h in either case. -/
def isMoveBackward : tcell.Event → Bool
  | .EventKey .KeyUp _ => true
  | .EventKey .KeyLeft _ => true
  | .EventKey .KeyRune r => decide (r ∈ ['w', 'W', 'k', 'K', 'a', 'A', 'h', 'H'])
  | _ => false

/-- The move-forward inputs of section 4.4 of the specification: down, right,
and the letters s, j, d, l in either case. -/
def isMoveForward : tcell.Event → Bool
  | .EventKey .KeyDown _ => true
  | .EventKey .KeyRight _ => true
  | .EventKey .KeyRune r => decide (r ∈ ['s', 'S', 'j', 'J', 'd', 'D', 'l', 'L'])
  | _ => false

/-- Go `strings.Join elems sep` for a separator of one character. -/
def strings.Join : List GoString → Char → GoString
  | [], _ => []
  | [l], _ => l
  | l :: l2 :: ls, sep => l ++ sep :: strings.Join (l2 :: ls) sep

/-- The text whose lines are `ls`, every line ended by a newline, as tmux
prints them. -/
def textOfLines (ls : List GoString) : GoString :=
  strings.Join (ls ++ [[]]) '\n'

/-- The listing text whose lines are given by their fields: the fields of a
line are joined by `|` and every line is ended by a newline. -/
def listingText (records : List (List GoString)) : GoString :=
  textOfLines (records.map (fun fields => strings.Join fields '|'))

/-- The lines of records given by their fields: the fields of a line are
joined by `|`. -/
def linesOfRecords (records : List (List GoString)) : List GoString :=
  records.map (fun fields => strings.Join fields '|')

/-- Well-formed lines, given by their fields: every line has exactly 6 fields,
and no field holds the field separator or a newline. -/
def WellFormedRecords (records : List (List GoString)) : Prop :=
  ∀ fields ∈ records, fields.length = 6 ∧ ∀ f ∈ fields, '|' ∉ f ∧ '\n' ∉ f

/-- The string does not begin with white space. -/
def NoLeadingSpace (s : GoString) : Prop :=
  ∀ c, s.head? = some c → unicode.IsSpace c = false

/-- The string does not end with white space. -/
def NoTrailingSpace (s : GoString) : Prop :=
  ∀ c, s.getLast? = some c → unicode.IsSpace c = false

/-- A decimal digit. -/
def isDecimalDigit (c : Char) : Bool :=
  decide (48 ≤ c.toNat ∧ c.toNat ≤ 57)

/-- The number a string of decimal digits denotes. -/
def decimalValue (s : GoString) : Nat :=
  s.foldl (fun n c => n * 10 + (c.toNat - 48)) 0

/-- A decimal unsigned integer: one decimal digit or more, and nothing else. -/
def isDecimalNumeral (s : GoString) : Bool :=
  !s.isEmpty && s.all isDecimalDigit

/-- The timestamp of a field as the claims state it: the numeric value of the
field, 0 if it is not numeric. -/
def statedTimestamp (f : GoString) : Nat :=
  if isDecimalNumeral f then decimalValue f else 0

/-- The timestamp the code gives a field: `2^64 - 1` as soon as the leading
digits of the field denote `2^64` or more, else the numeric value of a decimal
unsigned integer, else 0. -/
def coercedTimestamp (f : GoString) : Nat :=
  if 2 ^ 64 ≤ decimalValue (f.takeWhile isDecimalDigit) then 2 ^ 64 - 1
  else if isDecimalNumeral f then decimalValue f
  else 0

/-- The record of a line given by its fields, with the timestamp computed by
`timestamp` and the active flag true exactly for the field `1`. -/
def paneOfFields (timestamp : GoString → Nat) (fields : List GoString) : TmuxPane :=
  { SessionName := fields.getD 0 []
    WindowIndex := fields.getD 1 []
    PaneIndex := fields.getD 2 []
    PaneTitle := fields.getD 3 []
    LastUsed := timestamp (fields.getD 4 [])
    IsActive := decide (fields.getD 5 [] = ['1'])
    FullID := fields.getD 0 [] ++ [':'] ++ fields.getD 1 [] ++ ['.'] ++ fields.getD 2 [] }

/-- A line is blank when it holds white space only. -/
def isBlank (l : GoString) : Bool :=
  l.all unicode.IsSpace

/-- The lines of a text after its leading white space is removed: the blank
lines at the head are gone and the first line left has lost its leading white
space. -/
def trimLeftLines : List GoString → List GoString
  | [] => []
  | l :: ls =>
    if isBlank l then trimLeftLines ls
    else strings.TrimLeftFunc l unicode.IsSpace :: ls

/-- The lines of a text after its trailing white space is removed: the blank
lines at the end are gone and the last line left has lost its trailing white
space. -/
def trimRightLines (ls : List GoString) : List GoString :=
  match ls.reverse.dropWhile isBlank with
  | [] => []
  | l :: rest => rest.reverse ++ [strings.TrimRightFunc l unicode.IsSpace]

/-- The lines of a text after its leading and trailing white space is
removed. -/
def trimLines (ls : List GoString) : List GoString :=
  trimRightLines (trimLeftLines ls)

/-- The three lines of Scenario A of the specification, by their fields. -/
def scenarioARecords : List (List GoString) :=
  [ ["main".toList, "0".toList, "0".toList, "bash".toList, "1000".toList, "0".toList],
    ["main".toList, "0".toList, "1".toList, "vim".toList, "2000".toList, "1".toList],
    ["main".toList, "1".toList, "0".toList, "bash".toList, "500".toList, "0".toList] ]

/-- One well-formed line whose timestamp field is the decimal numeral of
`2^64`. -/
def overflowRecords : List (List GoString) :=
  [ ["main".toList, "0".toList, "0".toList, "bash".toList, "18446744073709551616".toList,
      "1".toList] ]

/-- One well-formed line whose sixth field is `1` followed by a blank. -/
def paddedRecords : List (List GoString) :=
  [ ["main".toList, "0".toList, "1".toList, "vim".toList, "2000".toList, "1 ".toList] ]

/-- The accept input of section 4.4 of the specification: enter. -/
def isAccept : tcell.Event → Bool
  | .EventKey .KeyEnter _ => true
  | _ => false

/-- The cancel inputs of section 4.4 of the specification: escape, the
interrupt key, and the letter q in either case. -/
def isCancel : tcell.Event → Bool
  | .EventKey .KeyEscape _ => true
  | .EventKey .KeyCtrlC _ => true
  | .EventKey .KeyRune r => decide (r ∈ ['q', 'Q'])
  | _ => false

/-- The control-key combinations the event loop also reads as moves:
Ctrl-K and Ctrl-H backward, Ctrl-J and Ctrl-L forward. -/
def isCtrlMove : tcell.Event → Bool
  | .EventKey .KeyCtrlK _ => true
  | .EventKey .KeyCtrlH _ => true
  | .EventKey .KeyCtrlJ _ => true
  | .EventKey .KeyCtrlL _ => true
  | _ => false

/-- The snapshot of three panes in which the running best time goes down:
inactive with timestamp 1000, active with timestamp 0, inactive with
timestamp 5. -/
def regressSnapshot : List TmuxPane :=
  [ ⟨"main".toList, "0".toList, "0".toList, "bash".toList, 1000, false, "main:0.0".toList⟩,
    ⟨"main".toList, "0".toList, "1".toList, "vim".toList, 0, true, "main:0.1".toList⟩,
    ⟨"main".toList, "1".toList, "0".toList, "bash".toList, 5, false, "main:1.0".toList⟩ ]

/-- A run in interactive mode inside tmux on the listing of Scenario A, whose
current-pane query fails and whose user presses enter at once. -/
def failedQueryRun : RunInput :=
  { tmuxEnv := "/tmp/tmux-1000/default,4242,0".toList
    listing := .ok "main|0|0|bash|1000|0\nmain|0|1|vim|2000|1\nmain|1|0|bash|500|0\n".toList
    paneQuery := .error ⟨"exit status 1".toList⟩
    screenErr := none
    events := [.EventKey .KeyEnter '\r']
    autoSelect := false
    outputFormat := "plain".toList }

/-- A snapshot without an active pane in which the greatest timestamp, 2000,
is carried by the panes at indices 1 and 2. -/
def tieSnapshot : List TmuxPane :=
  [ ⟨"main".toList, "0".toList, "0".toList, "bash".toList, 500, false, "main:0.0".toList⟩,
    ⟨"main".toList, "0".toList, "1".toList, "vim".toList, 2000, false, "main:0.1".toList⟩,
    ⟨"main".toList, "1".toList, "0".toList, "bash".toList, 2000, false, "main:1.0".toList⟩,
    ⟨"main".toList, "1".toList, "1".toList, "top".toList, 9000, false, "main:1.1".toList⟩ ]

/-! # Properties -/

/-! ## The recency scan -/

theorem findMostRecentPaneIndex.scan_eq_foldl (cur : GoString) (l : List TmuxPane) :
    ∀ (k : Nat) (ob : Option Nat) (bt : Nat),
      findMostRecentPaneIndex.scan cur l (k : Int) (encodeIndex ob) bt
        = encodeIndex ((l.enumFrom k).foldl (selectBest.visit cur) (ob, bt)).1 := by
  induction l with
  | nil => intro k ob bt; rfl
  | cons p rest ih =>
    intro k ob bt
    have hk : ((k : Int) + 1) = ((k + 1 : Nat) : Int) := by push_cast; rfl
    simp only [findMostRecentPaneIndex.scan, List.enumFrom_cons, List.foldl_cons,
      selectBest.visit, hk]
    by_cases h1 : p.FullID = cur
    · simp only [h1, if_true]; exact ih (k + 1) ob bt
    · simp only [h1, if_false]
      by_cases h2 : p.IsActive = true ∨ p.LastUsed > bt
      · simp only [h2, if_true]; exact ih (k + 1) (some k) p.LastUsed
      · simp only [h2, if_false]; exact ih (k + 1) ob bt

/-- C5: `findMostRecentPaneIndex` returns the `bestIndex` of the scan that
section 4.3 of the specification writes (`selectBest`), for every snapshot and
every excluded identifier, with none represented as `-1`. -/
theorem findMostRecentPaneIndex_eq_selectBest (panes : List TmuxPane) (currentPaneID : GoString) :
    findMostRecentPaneIndex panes currentPaneID = encodeIndex (selectBest panes currentPaneID) := by
  have h := findMostRecentPaneIndex.scan_eq_foldl currentPaneID panes 0 none 0
  simpa [findMostRecentPaneIndex, selectBest, encodeIndex, List.enum] using h

theorem findMostRecentPaneIndex.scan_nonneg (cur : GoString) (l : List TmuxPane) :
    ∀ (i bi : Int) (bt : Nat), 0 ≤ i → 0 ≤ bi →
      0 ≤ findMostRecentPaneIndex.scan cur l i bi bt := by
  induction l with
  | nil => intro i bi bt _ hb; exact hb
  | cons p rest ih =>
    intro i bi bt hi hb
    simp only [findMostRecentPaneIndex.scan]
    split_ifs
    · exact ih _ _ _ (by omega) hb
    · exact ih _ _ _ (by omega) hi
    · exact ih _ _ _ (by omega) hb

theorem findMostRecentPaneIndex.scan_eq_neg_one (cur : GoString) (l : List TmuxPane) :
    ∀ (i : Int) (bt : Nat), 0 ≤ i →
      (findMostRecentPaneIndex.scan cur l i (-1) bt = -1 ↔
        ∀ p ∈ l, p.FullID = cur ∨ (p.IsActive = false ∧ p.LastUsed ≤ bt)) := by
  induction l with
  | nil => intro i bt _; simp [findMostRecentPaneIndex.scan]
  | cons p rest ih =>
    intro i bt hi
    simp only [findMostRecentPaneIndex.scan, List.forall_mem_cons]
    by_cases h1 : p.FullID = cur
    · simp only [h1, if_true, true_or, true_and]
      exact ih (i + 1) bt (by omega)
    · simp only [h1, if_false, false_or]
      by_cases h2 : p.IsActive = true ∨ p.LastUsed > bt
      · simp only [h2, if_true]
        have hpos := findMostRecentPaneIndex.scan_nonneg cur rest (i + 1) i p.LastUsed
          (by omega) hi
        constructor
        · intro h; omega
        · rintro ⟨⟨ha, ht⟩, -⟩
          rcases h2 with h2 | h2
          · rw [ha] at h2; exact absurd h2 (by decide)
          · omega
      · simp only [h2, if_false]
        rw [ih (i + 1) bt (by omega)]
        have ha : p.IsActive = false := by
          cases hp : p.IsActive
          · rfl
          · exact absurd (Or.inl hp) h2
        have ht : p.LastUsed ≤ bt := by
          by_contra hc
          exact h2 (Or.inr (by omega))
        simp [ha, ht]

theorem findMostRecentPane.scan_isSome (cur : GoString) (l : List TmuxPane) :
    ∀ (bp : Option TmuxPane) (bt : Nat), bp.isSome = true →
      (findMostRecentPane.scan cur l bp bt).isSome = true := by
  induction l with
  | nil => intro bp bt h; exact h
  | cons p rest ih =>
    intro bp bt h
    simp only [findMostRecentPane.scan]
    split_ifs
    · exact ih _ _ h
    · exact ih _ _ rfl
    · exact ih _ _ h

theorem findMostRecentPane.scan_eq_none (cur : GoString) (l : List TmuxPane) :
    ∀ (bt : Nat),
      (findMostRecentPane.scan cur l none bt = none ↔
        ∀ p ∈ l, p.FullID = cur ∨ (p.IsActive = false ∧ p.LastUsed ≤ bt)) := by
  induction l with
  | nil => intro bt; simp [findMostRecentPane.scan]
  | cons p rest ih =>
    intro bt
    simp only [findMostRecentPane.scan, List.forall_mem_cons]
    by_cases h1 : p.FullID = cur
    · simp only [h1, if_true, true_or, true_and]
      exact ih bt
    · simp only [h1, if_false, false_or]
      by_cases h2 : p.IsActive = true ∨ p.LastUsed > bt
      · simp only [h2, if_true]
        have hsome := findMostRecentPane.scan_isSome cur rest (some p) p.LastUsed rfl
        constructor
        · intro h; rw [h] at hsome; exact absurd hsome (by decide)
        · rintro ⟨⟨ha, ht⟩, -⟩
          rcases h2 with h2 | h2
          · rw [ha] at h2; exact absurd h2 (by decide)
          · omega
      · simp only [h2, if_false]
        rw [ih bt]
        have ha : p.IsActive = false := by
          cases hp : p.IsActive
          · rfl
          · exact absurd (Or.inl hp) h2
        have ht : p.LastUsed ≤ bt := by
          by_contra hc
          exact h2 (Or.inr (by omega))
        simp [ha, ht]

/-- C6, as the claim states it, fails: on the snapshot of one inactive pane
`main:0.1` with timestamp 0 and the excluded identifier `main:0.0`, both
selectors return none (`-1`, nil) although the pane is not excluded. -/
theorem findMostRecentPaneIndex_none_not_all_excluded :
    findMostRecentPaneIndex
        [⟨"main".toList, "0".toList, "1".toList, "zsh".toList, 0, false, "main:0.1".toList⟩]
        "main:0.0".toList = -1 ∧
    findMostRecentPane
        [⟨"main".toList, "0".toList, "1".toList, "zsh".toList, 0, false, "main:0.1".toList⟩]
        "main:0.0".toList = none ∧
    ¬ (∀ p ∈ [(⟨"main".toList, "0".toList, "1".toList, "zsh".toList, 0, false,
          "main:0.1".toList⟩ : TmuxPane)], p.FullID = "main:0.0".toList) := by
  refine ⟨by decide, by decide, by decide⟩

/-- C6, amended: `findMostRecentPaneIndex` returns `-1` exactly when
`findMostRecentPane` returns nil, and that happens exactly when every pane of
the snapshot either has the excluded identifier or is inactive with timestamp
0. -/
theorem findMostRecentPaneIndex_none_iff (panes : List TmuxPane) (currentPaneID : GoString) :
    (findMostRecentPaneIndex panes currentPaneID = -1 ↔
      findMostRecentPane panes currentPaneID = none) ∧
    (findMostRecentPaneIndex panes currentPaneID = -1 ↔
      ∀ p ∈ panes, p.FullID = currentPaneID ∨ (p.IsActive = false ∧ p.LastUsed = 0)) := by
  have h1 := findMostRecentPaneIndex.scan_eq_neg_one currentPaneID panes 0 0 (le_refl 0)
  have h2 := findMostRecentPane.scan_eq_none currentPaneID panes 0
  simp only [Nat.le_zero] at h1 h2
  exact ⟨h1.trans h2.symm, h1⟩

theorem findMostRecentPaneIndex.scan_keep (cur : GoString) (l : List TmuxPane) :
    ∀ (i bi : Int) (bt : Nat),
      (∀ p ∈ l, p.FullID ≠ cur → p.IsActive = false ∧ p.LastUsed ≤ bt) →
      findMostRecentPaneIndex.scan cur l i bi bt = bi := by
  induction l with
  | nil => intro i bi bt _; rfl
  | cons p rest ih =>
    intro i bi bt h
    have hrest : ∀ q ∈ rest, q.FullID ≠ cur → q.IsActive = false ∧ q.LastUsed ≤ bt :=
      fun q hq => h q (List.mem_cons_of_mem _ hq)
    simp only [findMostRecentPaneIndex.scan]
    by_cases h1 : p.FullID = cur
    · simp only [h1, if_true]; exact ih _ _ _ hrest
    · simp only [h1, if_false]
      obtain ⟨ha, ht⟩ := h p (List.mem_cons_self _ _) h1
      have h2 : ¬ (p.IsActive = true ∨ p.LastUsed > bt) := by
        rintro (h2 | h2)
        · rw [ha] at h2; exact absurd h2 (by decide)
        · omega
      simp only [h2, if_false]; exact ih _ _ _ hrest

theorem findMostRecentPaneIndex.scan_active (cur : GoString) (l : List TmuxPane) :
    ∀ (a : Nat) (pa : TmuxPane) (i bi : Int) (bt : Nat),
      l[a]? = some pa → pa.IsActive = true → pa.FullID ≠ cur →
      (∀ j p, a < j → l[j]? = some p → p.FullID ≠ cur →
        p.IsActive = false ∧ p.LastUsed ≤ pa.LastUsed) →
      findMostRecentPaneIndex.scan cur l i bi bt = i + a := by
  induction l with
  | nil => intro a pa i bi bt h; simp at h
  | cons p rest ih =>
    intro a pa i bi bt hget hact hne hlater
    cases a with
    | zero =>
      simp only [List.getElem?_cons_zero, Option.some.injEq] at hget
      subst hget
      simp only [findMostRecentPaneIndex.scan, hne, if_false, hact, true_or, if_true]
      rw [findMostRecentPaneIndex.scan_keep]
      · simp
      · intro q hq hqne
        obtain ⟨j, hj, hjq⟩ := List.mem_iff_getElem.mp hq
        have : (p :: rest)[j + 1]? = some q := by
          simp [List.getElem?_eq_getElem hj, hjq]
        exact hlater (j + 1) q (by omega) this hqne
    | succ a =>
      simp only [List.getElem?_cons_succ] at hget
      have hlater2 : ∀ j q, a < j → rest[j]? = some q → q.FullID ≠ cur →
          q.IsActive = false ∧ q.LastUsed ≤ pa.LastUsed := by
        intro j q hj hq hqne
        exact hlater (j + 1) q (by omega) (by simpa using hq) hqne
      have key : ∀ bi2 bt2, findMostRecentPaneIndex.scan cur rest (i + 1) bi2 bt2
          = i + ((a + 1 : Nat) : Int) := by
        intro bi2 bt2
        rw [ih a pa (i + 1) bi2 bt2 hget hact hne hlater2]
        push_cast; ring
      simp only [findMostRecentPaneIndex.scan]
      split_ifs <;> exact key _ _

/-- C7: for every snapshot and excluded identifier, if the pane at index `a`
is active and not excluded, no later pane that is not excluded is active, and
no later pane that is not excluded has a timestamp strictly greater than that
of pane `a`, then `findMostRecentPaneIndex` returns `a`. -/
theorem findMostRecentPaneIndex_last_active (panes : List TmuxPane) (currentPaneID : GoString)
    (a : Nat) (pa : TmuxPane) (ha : panes[a]? = some pa)
    (hactive : pa.IsActive = true) (hkept : pa.FullID ≠ currentPaneID)
    (hlast : ∀ j p, a < j → panes[j]? = some p → p.FullID ≠ currentPaneID →
      p.IsActive = false)
    (hrecent : ∀ j p, a < j → panes[j]? = some p → p.FullID ≠ currentPaneID →
      ¬ (p.LastUsed > pa.LastUsed)) :
    findMostRecentPaneIndex panes currentPaneID = (a : Int) := by
  have h := findMostRecentPaneIndex.scan_active currentPaneID panes a pa 0 (-1) 0 ha hactive
    hkept (fun j p hj hp hne => ⟨hlast j p hj hp hne, Nat.le_of_not_lt (hrecent j p hj hp hne)⟩)
  simpa [findMostRecentPaneIndex] using h

/-- C7, witness: Scenario A of the specification, with excluded identifier
`main:0.0`, returns index 1. -/
theorem findMostRecentPaneIndex_scenarioA :
    findMostRecentPaneIndex scenarioA "main:0.0".toList = 1 :=
  findMostRecentPaneIndex_last_active scenarioA "main:0.0".toList 1
    ⟨"main".toList, "0".toList, "1".toList, "vim".toList, 2000, true, "main:0.1".toList⟩
    rfl rfl (by decide)
    (by
      intro j p hj hp _
      rcases j with _ | _ | _ | j
      · omega
      · omega
      · simp only [scenarioA, List.getElem?_cons_succ, List.getElem?_cons_zero,
          Option.some.injEq] at hp
        rw [← hp]
      · simp [scenarioA] at hp)
    (by
      intro j p hj hp _
      rcases j with _ | _ | _ | j
      · omega
      · omega
      · simp only [scenarioA, List.getElem?_cons_succ, List.getElem?_cons_zero,
          Option.some.injEq] at hp
        rw [← hp]; decide
      · simp [scenarioA] at hp)

/-! ## The event loop -/

theorem interactivePaneSelector.movePrev_eq (panes : List TmuxPane) (c : Int)
    (hc0 : 0 ≤ c) (hc : c < panes.length) :
    interactivePaneSelector.movePrev panes c
      = .Browsing ((c - 1 + panes.length) % panes.length) := by
  have hn : (panes.length : Int) ≠ 0 := by omega
  simp only [interactivePaneSelector.movePrev, hn, if_false]
  rw [Int.tmod_eq_emod (by omega) (by omega)]

theorem interactivePaneSelector.moveNext_eq (panes : List TmuxPane) (c : Int)
    (hc0 : 0 ≤ c) (hc : c < panes.length) :
    interactivePaneSelector.moveNext panes c
      = .Browsing ((c + 1) % panes.length) := by
  have hn : (panes.length : Int) ≠ 0 := by omega
  simp only [interactivePaneSelector.moveNext, hn, if_false]
  rw [Int.tmod_eq_emod (by omega) (by omega)]

theorem interactivePaneSelector.step_backward (panes : List TmuxPane) (c : Int)
    (ev : tcell.Event) (hev : isMoveBackward ev = true) :
    interactivePaneSelector.step panes c ev = interactivePaneSelector.movePrev panes c := by
  cases ev with
  | EventKey key r =>
    cases key <;> simp only [isMoveBackward, interactivePaneSelector.step] at hev ⊢ <;>
      try exact absurd hev (by decide)
    simp only [List.mem_cons, List.mem_singleton, List.not_mem_nil, or_false,
      decide_eq_true_eq] at hev
    rcases hev with h | h | h | h | h | h | h | h <;> subst h <;> rfl
  | EventResize => exact absurd hev (by decide)
  | otherEvent => exact absurd hev (by decide)

theorem interactivePaneSelector.step_forward (panes : List TmuxPane) (c : Int)
    (ev : tcell.Event) (hev : isMoveForward ev = true) :
    interactivePaneSelector.step panes c ev = interactivePaneSelector.moveNext panes c := by
  cases ev with
  | EventKey key r =>
    cases key <;> simp only [isMoveForward, interactivePaneSelector.step] at hev ⊢ <;>
      try exact absurd hev (by decide)
    simp only [List.mem_cons, List.mem_singleton, List.not_mem_nil, or_false,
      decide_eq_true_eq] at hev
    rcases hev with h | h | h | h | h | h | h | h <;> subst h <;> rfl
  | EventResize => exact absurd hev (by decide)
  | otherEvent => exact absurd hev (by decide)

/-- C8: with `n > 0` panes and a cursor `c` in `[0, n)`, the switch of the event
loop leaves the loop `Browsing` with cursor `(c - 1 + n) mod n` on each
move-backward input and with cursor `(c + 1) mod n` on each move-forward
input. -/
theorem interactivePaneSelector_step_move (panes : List TmuxPane) (c : Int)
    (_hn : 0 < panes.length) (hc0 : 0 ≤ c) (hc : c < panes.length) (ev : tcell.Event) :
    (isMoveBackward ev = true → interactivePaneSelector.step panes c ev
      = .Browsing ((c - 1 + panes.length) % panes.length)) ∧
    (isMoveForward ev = true → interactivePaneSelector.step panes c ev
      = .Browsing ((c + 1) % panes.length)) := by
  constructor
  · intro hev
    rw [interactivePaneSelector.step_backward panes c ev hev,
      interactivePaneSelector.movePrev_eq panes c hc0 hc]
  · intro hev
    rw [interactivePaneSelector.step_forward panes c ev hev,
      interactivePaneSelector.moveNext_eq panes c hc0 hc]

/-- C8, witness: on the three panes of Scenario A with cursor 0, the letter
`K` moves the cursor to `(0 - 1 + 3) mod 3` and the right arrow moves it to
`(0 + 1) mod 3`. -/
theorem interactivePaneSelector_step_move_witness :
    interactivePaneSelector.step scenarioA 0 (.EventKey .KeyRune 'K')
      = .Browsing ((0 - 1 + (scenarioA.length : Int)) % scenarioA.length) ∧
    interactivePaneSelector.step scenarioA 0 (.EventKey .KeyRight 'x')
      = .Browsing ((0 + 1) % (scenarioA.length : Int)) :=
  ⟨(interactivePaneSelector_step_move scenarioA 0 (by decide) (by decide) (by decide)
      (.EventKey .KeyRune 'K')).1 (by decide),
   (interactivePaneSelector_step_move scenarioA 0 (by decide) (by decide) (by decide)
      (.EventKey .KeyRight 'x')).2 (by decide)⟩

theorem emod_next_prev (n i : Int) (h0 : 0 ≤ i) (h1 : i < n) :
    ((i + 1) % n - 1 + n) % n = i := by
  by_cases h : i + 1 < n
  · rw [Int.emod_eq_of_lt (by omega) h]
    have e : i + 1 - 1 + n = i + n * 1 := by ring
    rw [e, Int.add_mul_emod_self_left, Int.emod_eq_of_lt h0 h1]
  · have e : i + 1 = n := by omega
    rw [e, Int.emod_self, Int.emod_eq_of_lt (by omega) (by omega)]
    omega

theorem emod_prev_next (n i : Int) (h0 : 0 ≤ i) (h1 : i < n) :
    ((i - 1 + n) % n + 1) % n = i := by
  by_cases h : 1 ≤ i
  · have e1 : (i - 1 + n) % n = i - 1 := by
      have e : i - 1 + n = (i - 1) + n * 1 := by ring
      rw [e, Int.add_mul_emod_self_left]
      exact Int.emod_eq_of_lt (by omega) (by omega)
    have e2 : i - 1 + 1 = i := by ring
    rw [e1, e2]
    exact Int.emod_eq_of_lt h0 h1
  · have e : i = 0 := by omega
    subst e
    have e1 : ((0 : Int) - 1 + n) % n = n - 1 := by
      have e : (0 : Int) - 1 + n = n - 1 := by ring
      rw [e]
      exact Int.emod_eq_of_lt (by omega) (by omega)
    have e2 : n - 1 + 1 = n := by ring
    rw [e1, e2, Int.emod_self]

theorem interactivePaneSelector.loop_two (panes : List TmuxPane) (c c1 c2 : Int)
    (e1 e2 : tcell.Event)
    (h1 : interactivePaneSelector.step panes c e1 = .Browsing c1)
    (h2 : interactivePaneSelector.step panes c1 e2 = .Browsing c2) :
    interactivePaneSelector.loop panes c [e1, e2] = .Browsing c2 := by
  simp only [interactivePaneSelector.loop, h1, h2]

/-- C9: with `n > 0` panes, a move-backward input at cursor 0 gives cursor
`n - 1`, a move-forward input at cursor `n - 1` gives cursor 0, and from every
cursor `i` in `[0, n)` a forward move followed by a backward move, and a
backward move followed by a forward move, both leave the loop `Browsing` at
`i`. -/
theorem interactivePaneSelector_navigation_wraps (panes : List TmuxPane)
    (hn : 0 < panes.length) (b f : tcell.Event)
    (hb : isMoveBackward b = true) (hf : isMoveForward f = true) :
    interactivePaneSelector.step panes 0 b = .Browsing ((panes.length : Int) - 1) ∧
    interactivePaneSelector.step panes ((panes.length : Int) - 1) f = .Browsing 0 ∧
    ∀ i : Int, 0 ≤ i → i < panes.length →
      interactivePaneSelector.loop panes i [f, b] = .Browsing i ∧
      interactivePaneSelector.loop panes i [b, f] = .Browsing i := by
  have hn2 : (0 : Int) < panes.length := by exact_mod_cast hn
  have back : ∀ c : Int, 0 ≤ c → c < panes.length →
      interactivePaneSelector.step panes c b
        = .Browsing ((c - 1 + panes.length) % panes.length) := fun c h0 h1 =>
    (interactivePaneSelector.step_backward panes c b hb).trans
      (interactivePaneSelector.movePrev_eq panes c h0 h1)
  have fwd : ∀ c : Int, 0 ≤ c → c < panes.length →
      interactivePaneSelector.step panes c f
        = .Browsing ((c + 1) % panes.length) := fun c h0 h1 =>
    (interactivePaneSelector.step_forward panes c f hf).trans
      (interactivePaneSelector.moveNext_eq panes c h0 h1)
  refine ⟨?_, ?_, ?_⟩
  · rw [back 0 (le_refl 0) hn2]
    congr 1
    rw [Int.emod_eq_of_lt (by omega) (by omega)]; ring
  · rw [fwd _ (by omega) (by omega)]
    congr 1
    simp
  · intro i hi0 hi
    have hf0 : 0 ≤ (i + 1) % (panes.length : Int) := Int.emod_nonneg _ (by omega)
    have hf1 : (i + 1) % (panes.length : Int) < panes.length := Int.emod_lt_of_pos _ hn2
    have hb0 : 0 ≤ (i - 1 + panes.length) % (panes.length : Int) :=
      Int.emod_nonneg _ (by omega)
    have hb1 : (i - 1 + panes.length) % (panes.length : Int) < panes.length :=
      Int.emod_lt_of_pos _ hn2
    constructor
    · refine interactivePaneSelector.loop_two panes i _ i f b (fwd i hi0 hi) ?_
      rw [back _ hf0 hf1, emod_next_prev _ i hi0 hi]
    · refine interactivePaneSelector.loop_two panes i _ i b f (back i hi0 hi) ?_
      rw [fwd _ hb0 hb1, emod_prev_next _ i hi0 hi]

/-- C9, witness: with the three panes of Scenario A, a forward move at cursor
2 gives cursor 0 and forward then backward from cursor 1 returns to 1; two
forward moves from cursor 1 give the cursor sequence 1, 2, 0. -/
theorem interactivePaneSelector_navigation_wraps_witness :
    (interactivePaneSelector.step scenarioA 0 (.EventKey .KeyUp 'x')
        = .Browsing ((scenarioA.length : Int) - 1) ∧
      interactivePaneSelector.step scenarioA ((scenarioA.length : Int) - 1)
        (.EventKey .KeyDown 'x') = .Browsing 0 ∧
      ∀ i : Int, 0 ≤ i → i < scenarioA.length →
        interactivePaneSelector.loop scenarioA i [.EventKey .KeyDown 'x', .EventKey .KeyUp 'x']
          = .Browsing i ∧
        interactivePaneSelector.loop scenarioA i [.EventKey .KeyUp 'x', .EventKey .KeyDown 'x']
          = .Browsing i) ∧
    interactivePaneSelector.loop scenarioA 1 [] = .Browsing 1 ∧
    interactivePaneSelector.loop scenarioA 1 [.EventKey .KeyDown 'x'] = .Browsing 2 ∧
    interactivePaneSelector.loop scenarioA 1 [.EventKey .KeyDown 'x', .EventKey .KeyDown 'x']
      = .Browsing 0 :=
  ⟨interactivePaneSelector_navigation_wraps scenarioA (by decide) (.EventKey .KeyUp 'x')
      (.EventKey .KeyDown 'x') (by decide) (by decide),
    by decide, by decide, by decide⟩

theorem findMostRecentPaneIndex.scan_lt (cur : GoString) (l : List TmuxPane) :
    ∀ (i bi : Int) (bt : Nat), bi < i →
      findMostRecentPaneIndex.scan cur l i bi bt < i + l.length := by
  induction l with
  | nil => intro i bi bt h; simpa [findMostRecentPaneIndex.scan] using h
  | cons p rest ih =>
    intro i bi bt h
    have e : i + ((p :: rest).length : Int) = (i + 1) + rest.length := by
      simp only [List.length_cons]; push_cast; ring
    rw [e]
    simp only [findMostRecentPaneIndex.scan]
    split_ifs
    · exact ih _ _ _ (by omega)
    · exact ih _ _ _ (by omega)
    · exact ih _ _ _ (by omega)

theorem interactivePaneSelector.initialIndex_range (panes : List TmuxPane) (cur : GoString)
    (hn : 0 < panes.length) :
    0 ≤ interactivePaneSelector.initialIndex panes cur ∧
      interactivePaneSelector.initialIndex panes cur < panes.length := by
  have hlt := findMostRecentPaneIndex.scan_lt cur panes 0 (-1) 0 (by decide)
  simp only [interactivePaneSelector.initialIndex, findMostRecentPaneIndex]
  split_ifs with h
  · exact ⟨h, by omega⟩
  · exact ⟨le_refl 0, by exact_mod_cast hn⟩

theorem interactivePaneSelector.movePrev_range (panes : List TmuxPane) (c : Int)
    (hc0 : 0 ≤ c) (hc : c < panes.length) :
    ∃ c2 : Int, interactivePaneSelector.movePrev panes c = .Browsing c2 ∧
      0 ≤ c2 ∧ c2 < panes.length :=
  ⟨_, interactivePaneSelector.movePrev_eq panes c hc0 hc, Int.emod_nonneg _ (by omega),
    Int.emod_lt_of_pos _ (by omega)⟩

theorem interactivePaneSelector.moveNext_range (panes : List TmuxPane) (c : Int)
    (hc0 : 0 ≤ c) (hc : c < panes.length) :
    ∃ c2 : Int, interactivePaneSelector.moveNext panes c = .Browsing c2 ∧
      0 ≤ c2 ∧ c2 < panes.length :=
  ⟨_, interactivePaneSelector.moveNext_eq panes c hc0 hc, Int.emod_nonneg _ (by omega),
    Int.emod_lt_of_pos _ (by omega)⟩

theorem interactivePaneSelector.accept_eq (panes : List TmuxPane) (c : Int)
    (hc0 : 0 ≤ c) (hc : c < panes.length) :
    ∃ p, panes[c.toNat]? = some p ∧
      interactivePaneSelector.accept panes c = .Returned (some p) none := by
  have hlt : c.toNat < panes.length := by omega
  refine ⟨panes[c.toNat], List.getElem?_eq_getElem hlt, ?_⟩
  simp only [interactivePaneSelector.accept, hc0, hc, and_self, if_true,
    List.getElem?_eq_getElem hlt]

/-- One turn of the event loop from a cursor inside the snapshot either stays
`Browsing` with a cursor inside the snapshot or returns. -/
theorem interactivePaneSelector.step_range (panes : List TmuxPane) (c : Int)
    (hc0 : 0 ≤ c) (hc : c < panes.length) (ev : tcell.Event) :
    (∃ c2 : Int, interactivePaneSelector.step panes c ev = .Browsing c2 ∧
      0 ≤ c2 ∧ c2 < panes.length) ∨
    (∃ p err, interactivePaneSelector.step panes c ev = .Returned p err) := by
  have hp := interactivePaneSelector.movePrev_range panes c hc0 hc
  have hx := interactivePaneSelector.moveNext_range panes c hc0 hc
  obtain ⟨p, -, hacc⟩ := interactivePaneSelector.accept_eq panes c hc0 hc
  have stay : ∃ c2 : Int, LoopState.Browsing c = .Browsing c2 ∧ 0 ≤ c2 ∧ c2 < panes.length :=
    ⟨c, rfl, hc0, hc⟩
  cases ev with
  | EventKey key r =>
    cases key <;> simp only [interactivePaneSelector.step]
    case KeyUp => exact Or.inl hp
    case KeyDown => exact Or.inl hx
    case KeyLeft => exact Or.inl hp
    case KeyRight => exact Or.inl hx
    case KeyCtrlC => exact Or.inr ⟨_, _, rfl⟩
    case KeyCtrlH => exact Or.inl hp
    case KeyCtrlJ => exact Or.inl hx
    case KeyCtrlK => exact Or.inl hp
    case KeyCtrlL => exact Or.inl hx
    case KeyEnter => exact Or.inr ⟨_, _, hacc⟩
    case KeyEscape => exact Or.inr ⟨_, _, rfl⟩
    case KeyRune =>
      split_ifs
      · exact Or.inl hp
      · exact Or.inl hx
      · exact Or.inl hp
      · exact Or.inl hx
      · exact Or.inr ⟨_, _, rfl⟩
      · exact Or.inl stay
    case otherKey => exact Or.inl stay
  | EventResize => exact Or.inl stay
  | otherEvent => exact Or.inl stay

theorem interactivePaneSelector.loop_range (panes : List TmuxPane) (events : List tcell.Event) :
    ∀ c : Int, 0 ≤ c → c < panes.length →
      interactivePaneSelector.loop panes c events ≠ .Panic ∧
      ∀ c2, interactivePaneSelector.loop panes c events = .Browsing c2 →
        0 ≤ c2 ∧ c2 < panes.length := by
  induction events with
  | nil =>
    intro c hc0 hc
    simp only [interactivePaneSelector.loop]
    refine ⟨by simp, ?_⟩
    intro c2 h
    cases h
    exact ⟨hc0, hc⟩
  | cons ev evs ih =>
    intro c hc0 hc
    simp only [interactivePaneSelector.loop]
    rcases interactivePaneSelector.step_range panes c hc0 hc ev with
      ⟨c1, h1, h10, h11⟩ | ⟨p, err, h1⟩
    · rw [h1]; exact ih c1 h10 h11
    · rw [h1]; simp

/-- C10: for every snapshot with `n > 0` panes and every current-pane
identifier, the cursor set at entry lies in `[0, n)`; on every sequence of
input events the event loop started there never panics (no division by zero,
no index outside the snapshot) and, while it is `Browsing`, its cursor lies in
`[0, n)`; the same holds of `interactivePaneSelector` as a whole, whatever the
current-pane query answers. -/
theorem interactivePaneSelector_cursor_in_range (panes : List TmuxPane)
    (hn : 0 < panes.length) (currentPaneID : GoString) (events : List tcell.Event)
    (screenErr : Option ExecError) (paneQuery : Except ExecError GoString) :
    (0 ≤ interactivePaneSelector.initialIndex panes currentPaneID ∧
      interactivePaneSelector.initialIndex panes currentPaneID < panes.length) ∧
    (interactivePaneSelector.loop panes
        (interactivePaneSelector.initialIndex panes currentPaneID) events ≠ .Panic ∧
      ∀ c, interactivePaneSelector.loop panes
          (interactivePaneSelector.initialIndex panes currentPaneID) events = .Browsing c →
        0 ≤ c ∧ c < panes.length) ∧
    (interactivePaneSelector screenErr paneQuery panes events ≠ .Panic ∧
      ∀ c, interactivePaneSelector screenErr paneQuery panes events = .Browsing c →
        0 ≤ c ∧ c < panes.length) := by
  have h0 := interactivePaneSelector.initialIndex_range panes currentPaneID hn
  refine ⟨h0, interactivePaneSelector.loop_range panes events _ h0.1 h0.2, ?_⟩
  cases screenErr with
  | some err => simp [interactivePaneSelector]
  | none =>
    have h1 := interactivePaneSelector.initialIndex_range panes
      (getCurrentPaneID paneQuery).1 hn
    simpa only [interactivePaneSelector] using
      interactivePaneSelector.loop_range panes events _ h1.1 h1.2

/-- C10, witness: Scenario A entered from pane `main:0.0` starts at cursor 1,
and after the events up, up, `j`, resize the loop is `Browsing` inside the
snapshot. -/
theorem interactivePaneSelector_cursor_in_range_witness :
    ((0 ≤ interactivePaneSelector.initialIndex scenarioA "main:0.0".toList ∧
      interactivePaneSelector.initialIndex scenarioA "main:0.0".toList < scenarioA.length) ∧
    (interactivePaneSelector.loop scenarioA
        (interactivePaneSelector.initialIndex scenarioA "main:0.0".toList)
        [.EventKey .KeyUp 'x', .EventKey .KeyUp 'x', .EventKey .KeyRune 'j', .EventResize]
        ≠ .Panic ∧
      ∀ c, interactivePaneSelector.loop scenarioA
          (interactivePaneSelector.initialIndex scenarioA "main:0.0".toList)
          [.EventKey .KeyUp 'x', .EventKey .KeyUp 'x', .EventKey .KeyRune 'j', .EventResize]
          = .Browsing c →
        0 ≤ c ∧ c < scenarioA.length) ∧
    (interactivePaneSelector none (.ok "main:0.0\n".toList) scenarioA
        [.EventKey .KeyUp 'x', .EventKey .KeyUp 'x', .EventKey .KeyRune 'j', .EventResize]
        ≠ .Panic ∧
      ∀ c, interactivePaneSelector none (.ok "main:0.0\n".toList) scenarioA
          [.EventKey .KeyUp 'x', .EventKey .KeyUp 'x', .EventKey .KeyRune 'j', .EventResize]
          = .Browsing c →
        0 ≤ c ∧ c < scenarioA.length)) ∧
    interactivePaneSelector.initialIndex scenarioA "main:0.0".toList = 1 ∧
    interactivePaneSelector none (.ok "main:0.0\n".toList) scenarioA
        [.EventKey .KeyUp 'x', .EventKey .KeyUp 'x', .EventKey .KeyRune 'j', .EventResize]
      = .Browsing 0 :=
  ⟨interactivePaneSelector_cursor_in_range scenarioA (by decide) "main:0.0".toList
      [.EventKey .KeyUp 'x', .EventKey .KeyUp 'x', .EventKey .KeyRune 'j', .EventResize]
      none (.ok "main:0.0\n".toList),
    by decide, by decide⟩

/-! ## Splitting and joining -/

theorem strings.Split_ne_nil (s : GoString) (sep : Char) : strings.Split s sep ≠ [] := by
  induction s with
  | nil => simp [strings.Split]
  | cons c cs ih =>
    simp only [strings.Split]
    split_ifs
    · simp
    · cases h : strings.Split cs sep with
      | nil => exact absurd h ih
      | cons p ps => simp

theorem strings.Split_cons_ne (c : Char) (cs : GoString) (sep : Char) (h : c ≠ sep) :
    strings.Split (c :: cs) sep
      = ((c :: (strings.Split cs sep).headD []) :: (strings.Split cs sep).tail) := by
  simp only [strings.Split, h, if_false]
  cases h2 : strings.Split cs sep with
  | nil => exact absurd h2 (strings.Split_ne_nil cs sep)
  | cons p ps => simp

theorem strings.Split_append_sep (l rest : GoString) (sep : Char) (h : sep ∉ l) :
    strings.Split (l ++ sep :: rest) sep = l :: strings.Split rest sep := by
  induction l with
  | nil => simp [strings.Split]
  | cons c cs ih =>
    have hc : c ≠ sep := fun e => h (e ▸ List.mem_cons_self _ _)
    have hcs : sep ∉ cs := fun e => h (List.mem_cons_of_mem _ e)
    rw [List.cons_append, strings.Split_cons_ne _ _ _ hc, ih hcs]
    simp

theorem strings.Split_of_not_mem (l : GoString) (sep : Char) (h : sep ∉ l) :
    strings.Split l sep = [l] := by
  induction l with
  | nil => simp [strings.Split]
  | cons c cs ih =>
    have hc : c ≠ sep := fun e => h (e ▸ List.mem_cons_self _ _)
    have hcs : sep ∉ cs := fun e => h (List.mem_cons_of_mem _ e)
    rw [strings.Split_cons_ne _ _ _ hc, ih hcs]
    simp

theorem strings.Split_Join (ls : List GoString) (sep : Char) (hne : ls ≠ [])
    (h : ∀ l ∈ ls, sep ∉ l) : strings.Split (strings.Join ls sep) sep = ls := by
  induction ls with
  | nil => exact absurd rfl hne
  | cons l rest ih =>
    cases rest with
    | nil => simpa [strings.Join] using strings.Split_of_not_mem l sep (h l (by simp))
    | cons l2 rest2 =>
      simp only [strings.Join]
      rw [strings.Split_append_sep _ _ _ (h l (by simp)),
        ih (by simp) (fun x hx => h x (List.mem_cons_of_mem _ hx))]

theorem strings.Split_length (s : GoString) (sep : Char) :
    (strings.Split s sep).length = s.count sep + 1 := by
  induction s with
  | nil => simp [strings.Split]
  | cons c cs ih =>
    by_cases hc : c = sep
    · subst hc
      simp [strings.Split, ih]
    · rw [strings.Split_cons_ne _ _ _ hc, List.count_cons_of_ne (Ne.symm hc)]
      have := strings.Split_ne_nil cs sep
      cases h2 : strings.Split cs sep with
      | nil => exact absurd h2 this
      | cons p ps => rw [h2] at ih; simpa using ih

/-! ## ParseUint -/

theorem decimal_foldl_ge (s : GoString) :
    ∀ n : Nat, n ≤ s.foldl (fun n c => n * 10 + (c.toNat - 48)) n := by
  induction s with
  | nil => intro n; exact le_refl n
  | cons c cs ih =>
    intro n
    simp only [List.foldl_cons]
    exact le_trans (by omega) (ih _)

theorem strconv.ParseUint.loop_eq (s : GoString) :
    ∀ n : Nat, n < 2 ^ 64 →
      strconv.ParseUint.loop s n =
        if 2 ^ 64 ≤ (s.takeWhile isDecimalDigit).foldl (fun n c => n * 10 + (c.toNat - 48)) n
        then (2 ^ 64 - 1, some .ErrRange)
        else if s.all isDecimalDigit
          then ((s.takeWhile isDecimalDigit).foldl (fun n c => n * 10 + (c.toNat - 48)) n, none)
          else (0, some .ErrBadDigits) := by
  induction s with
  | nil =>
    intro n hn
    simp only [strconv.ParseUint.loop, List.takeWhile_nil, List.foldl_nil, List.all_nil]
    rw [if_neg (by omega)]
    simp
  | cons c cs ih =>
    intro n hn
    by_cases hd : isDecimalDigit c = true
    · have hd2 : 48 ≤ c.toNat ∧ c.toNat ≤ 57 := by simpa [isDecimalDigit] using hd
      have hnot : ¬ (c.toNat < 48 ∨ 57 < c.toNat) := by omega
      have hge := decimal_foldl_ge (cs.takeWhile isDecimalDigit) (n * 10 + (c.toNat - 48))
      simp only [strconv.ParseUint.loop, hnot, if_false, List.takeWhile_cons, hd, if_true,
        List.foldl_cons, List.all_cons, Bool.true_and, strconv.maxUint64]
      by_cases hcut : n ≥ (2 ^ 64 - 1) / 10 + 1
      · rw [if_pos hcut, if_pos (by omega)]
      · rw [if_neg hcut]
        have h10 : (n * 10) % 2 ^ 64 = n * 10 := Nat.mod_eq_of_lt (by omega)
        rw [h10]
        by_cases hov : 2 ^ 64 ≤ n * 10 + (c.toNat - 48)
        · have h1 : (n * 10 + (c.toNat - 48)) % 2 ^ 64 < n * 10 := by omega
          rw [if_pos (Or.inl h1), if_pos (by omega)]
        · have h1 : (n * 10 + (c.toNat - 48)) % 2 ^ 64 = n * 10 + (c.toNat - 48) :=
            Nat.mod_eq_of_lt (by omega)
          rw [h1, if_neg (by omega)]
          exact ih _ (by omega)
    · have hd2 : ¬ (48 ≤ c.toNat ∧ c.toNat ≤ 57) := by simpa [isDecimalDigit] using hd
      have hyes : c.toNat < 48 ∨ 57 < c.toNat := by omega
      have hd3 : isDecimalDigit c = false := by simpa using hd
      simp only [strconv.ParseUint.loop, hyes, if_true, List.takeWhile_cons, hd3,
        Bool.false_eq_true, if_false, List.foldl_nil, List.all_cons, Bool.false_and]
      rw [if_neg (by omega)]

/-- The value `strconv.ParseUint` returns, whatever the error: the timestamp
`coercedTimestamp` describes. -/
theorem strconv.ParseUint_fst (s : GoString) :
    (strconv.ParseUint s).1 = coercedTimestamp s := by
  unfold strconv.ParseUint coercedTimestamp isDecimalNumeral decimalValue
  cases s with
  | nil => simp
  | cons c cs =>
    rw [if_neg (by simp), strconv.ParseUint.loop_eq _ 0 (by norm_num)]
    by_cases h1 : 2 ^ 64 ≤ ((c :: cs).takeWhile isDecimalDigit).foldl
        (fun n c => n * 10 + (c.toNat - 48)) 0
    · rw [if_pos h1, if_pos h1]
    · rw [if_neg h1, if_neg h1]
      by_cases h2 : (c :: cs).all isDecimalDigit = true
      · have h3 : (c :: cs).takeWhile isDecimalDigit = c :: cs :=
          List.takeWhile_eq_self_iff.mpr (by simpa using h2)
        rw [if_pos h2, h3]
        simp [h2]
      · rw [if_neg h2]
        have h3 : (c :: cs).all isDecimalDigit = false := by simpa using h2
        simp [h3]

/-! ## Trimming a text of lines -/

theorem strings.TrimLeftFunc_append_of_all (a b : GoString) (f : Char → Bool)
    (h : a.all f = true) :
    strings.TrimLeftFunc (a ++ b) f = strings.TrimLeftFunc b f := by
  unfold strings.TrimLeftFunc
  exact List.dropWhile_append_of_pos (by simpa using h)

theorem strings.TrimLeftFunc_append_of_not_all (a b : GoString) (f : Char → Bool)
    (h : a.all f = false) :
    strings.TrimLeftFunc (a ++ b) f = strings.TrimLeftFunc a f ++ b := by
  unfold strings.TrimLeftFunc
  rw [List.dropWhile_append]
  have hne : a.dropWhile f ≠ [] := by
    intro e
    rw [List.dropWhile_eq_nil_iff] at e
    have : a.all f = true := by simpa using e
    rw [h] at this
    exact absurd this (by decide)
  cases hd : a.dropWhile f with
  | nil => exact absurd hd hne
  | cons x xs => simp

theorem strings.TrimLeftFunc_of_all (a : GoString) (f : Char → Bool) (h : a.all f = true) :
    strings.TrimLeftFunc a f = [] := by
  unfold strings.TrimLeftFunc
  rw [List.dropWhile_eq_nil_iff]
  simpa using h

theorem strings.TrimRightFunc_append_of_all (a b : GoString) (f : Char → Bool)
    (h : b.all f = true) :
    strings.TrimRightFunc (a ++ b) f = strings.TrimRightFunc a f := by
  unfold strings.TrimRightFunc
  rw [List.reverse_append]
  have := strings.TrimLeftFunc_append_of_all b.reverse a.reverse f (by simpa using h)
  unfold strings.TrimLeftFunc at this
  rw [this]

theorem strings.TrimRightFunc_append_of_not_all (a b : GoString) (f : Char → Bool)
    (h : b.all f = false) :
    strings.TrimRightFunc (a ++ b) f = a ++ strings.TrimRightFunc b f := by
  unfold strings.TrimRightFunc
  rw [List.reverse_append]
  have := strings.TrimLeftFunc_append_of_not_all b.reverse a.reverse f (by simpa using h)
  unfold strings.TrimLeftFunc at this
  rw [this]
  simp

theorem strings.TrimRightFunc_of_all (a : GoString) (f : Char → Bool) (h : a.all f = true) :
    strings.TrimRightFunc a f = [] := by
  unfold strings.TrimRightFunc
  have := strings.TrimLeftFunc_of_all a.reverse f (by simpa using h)
  unfold strings.TrimLeftFunc at this
  rw [this]
  rfl

theorem strings.Join_cons (l : GoString) (ls : List GoString) (sep : Char) (h : ls ≠ []) :
    strings.Join (l :: ls) sep = l ++ sep :: strings.Join ls sep := by
  cases ls with
  | nil => exact absurd rfl h
  | cons l2 rest => rfl

theorem strings.Join_concat (ls : List GoString) (l : GoString) (sep : Char) (h : ls ≠ []) :
    strings.Join (ls ++ [l]) sep = strings.Join ls sep ++ sep :: l := by
  induction ls with
  | nil => exact absurd rfl h
  | cons a rest ih =>
    cases rest with
    | nil => simp [strings.Join]
    | cons b rest2 =>
      have e : (a :: b :: rest2) ++ [l] = a :: (b :: (rest2 ++ [l])) := rfl
      have ih2 := ih (by simp)
      rw [List.cons_append] at ih2
      rw [e, strings.Join_cons a (b :: (rest2 ++ [l])) sep (by simp), ih2,
        strings.Join_cons a (b :: rest2) sep (by simp)]
      simp

theorem trimRightLines_nil : trimRightLines [] = [] := rfl

theorem trimRightLines_concat (ls : List GoString) (l : GoString) :
    trimRightLines (ls ++ [l]) =
      if isBlank l then trimRightLines ls
      else ls ++ [strings.TrimRightFunc l unicode.IsSpace] := by
  unfold trimRightLines
  rw [List.reverse_append, List.reverse_singleton, List.singleton_append, List.dropWhile_cons]
  by_cases h : isBlank l = true
  · simp only [h, if_true]
  · simp only [h, if_false]
    simp

theorem trimLeftLines_Join (ls : List GoString) :
    strings.TrimLeftFunc (strings.Join ls '\n') unicode.IsSpace
      = strings.Join (trimLeftLines ls) '\n' := by
  induction ls with
  | nil => rfl
  | cons l rest ih =>
    by_cases hb : isBlank l = true
    · have hall : l.all unicode.IsSpace = true := hb
      simp only [trimLeftLines, hb, if_true]
      cases rest with
      | nil =>
        simp only [strings.Join, trimLeftLines]
        exact strings.TrimLeftFunc_of_all l _ hall
      | cons l2 rest2 =>
        rw [strings.Join_cons _ _ _ (by simp),
          strings.TrimLeftFunc_append_of_all _ _ _ hall, ← ih]
        have e : ('\n' :: strings.Join (l2 :: rest2) '\n')
            = ['\n'] ++ strings.Join (l2 :: rest2) '\n' := rfl
        rw [e, strings.TrimLeftFunc_append_of_all _ _ _ (by decide)]
    · have hall : l.all unicode.IsSpace = false := by
        simpa [isBlank] using hb
      simp only [trimLeftLines, hb, Bool.false_eq_true, if_false]
      cases rest with
      | nil => simp only [strings.Join]
      | cons l2 rest2 =>
        rw [strings.Join_cons l (l2 :: rest2) _ (by simp),
          strings.Join_cons (strings.TrimLeftFunc l unicode.IsSpace) (l2 :: rest2) _ (by simp),
          strings.TrimLeftFunc_append_of_not_all _ _ _ hall]

theorem trimRightLines_Join (ls : List GoString) :
    strings.TrimRightFunc (strings.Join ls '\n') unicode.IsSpace
      = strings.Join (trimRightLines ls) '\n' := by
  induction ls using List.reverseRecOn with
  | nil => rfl
  | append_singleton rest l ih =>
    rw [trimRightLines_concat]
    by_cases hb : isBlank l = true
    · have hall : l.all unicode.IsSpace = true := hb
      simp only [hb, if_true]
      by_cases hr : rest = []
      · subst hr
        simp only [List.nil_append, strings.Join, trimRightLines_nil]
        exact strings.TrimRightFunc_of_all l _ hall
      · rw [strings.Join_concat _ _ _ hr, ← ih]
        have e : strings.Join rest '\n' ++ '\n' :: l
            = strings.Join rest '\n' ++ ('\n' :: l) := rfl
        rw [e, strings.TrimRightFunc_append_of_all]
        simp only [List.all_cons, Bool.and_eq_true]
        exact ⟨by decide, hall⟩
    · have hall : l.all unicode.IsSpace = false := by
        simpa [isBlank] using hb
      simp only [hb, Bool.false_eq_true, if_false]
      by_cases hr : rest = []
      · subst hr
        simp only [List.nil_append, strings.Join]
      · rw [strings.Join_concat _ _ _ hr, strings.Join_concat _ _ _ hr]
        have e : ∀ x : GoString, strings.Join rest '\n' ++ '\n' :: x
            = (strings.Join rest '\n' ++ ['\n']) ++ x := by intro x; simp
        rw [e l, strings.TrimRightFunc_append_of_not_all _ _ _ hall]
        simp

/-- The trimmed text of lines is the text of the trimmed lines. -/
theorem strings.TrimSpace_Join (ls : List GoString) :
    strings.TrimSpace (strings.Join ls '\n') = strings.Join (trimLines ls) '\n' := by
  unfold strings.TrimSpace trimLines
  rw [trimLeftLines_Join, trimRightLines_Join]

theorem strings.TrimLeftFunc_subset (l : GoString) (f : Char → Bool) :
    strings.TrimLeftFunc l f ⊆ l :=
  List.dropWhile_subset f

theorem strings.TrimRightFunc_subset (l : GoString) (f : Char → Bool) :
    strings.TrimRightFunc l f ⊆ l := by
  intro c hc
  unfold strings.TrimRightFunc at hc
  rw [List.mem_reverse] at hc
  exact List.mem_reverse.mp (List.dropWhile_subset f hc)

theorem not_mem_trimLeftLines (c : Char) (ls : List GoString) (h : ∀ l ∈ ls, c ∉ l) :
    ∀ l ∈ trimLeftLines ls, c ∉ l := by
  induction ls with
  | nil => intro l hl; simp [trimLeftLines] at hl
  | cons a rest ih =>
    have hrest : ∀ l ∈ rest, c ∉ l := fun l hl => h l (List.mem_cons_of_mem _ hl)
    simp only [trimLeftLines]
    split_ifs
    · exact ih hrest
    · intro l hl
      rcases List.mem_cons.mp hl with e | hl2
      · subst e
        exact fun hc => h a (List.mem_cons_self _ _) (strings.TrimLeftFunc_subset _ _ hc)
      · exact hrest l hl2

theorem not_mem_trimRightLines (c : Char) (ls : List GoString) (h : ∀ l ∈ ls, c ∉ l) :
    ∀ l ∈ trimRightLines ls, c ∉ l := by
  induction ls using List.reverseRecOn with
  | nil => intro l hl; simp [trimRightLines] at hl
  | append_singleton rest a ih =>
    have hrest : ∀ l ∈ rest, c ∉ l := fun l hl => h l (List.mem_append_left _ hl)
    rw [trimRightLines_concat]
    split_ifs
    · exact ih hrest
    · intro l hl
      rcases List.mem_append.mp hl with hl2 | hl2
      · exact hrest l hl2
      · have e : l = strings.TrimRightFunc a unicode.IsSpace := by simpa using hl2
        subst e
        exact fun hc => h a (by simp) (strings.TrimRightFunc_subset _ _ hc)

theorem not_mem_trimLines (c : Char) (ls : List GoString) (h : ∀ l ∈ ls, c ∉ l) :
    ∀ l ∈ trimLines ls, c ∉ l :=
  not_mem_trimRightLines c _ (not_mem_trimLeftLines c ls h)

theorem getTmuxPanes.foldl_iter (ls : List GoString) :
    ∀ acc : List TmuxPane,
      ls.foldl getTmuxPanes.iter acc = acc ++ ls.filterMap getTmuxPanes.parseLine := by
  induction ls with
  | nil => intro acc; simp
  | cons l rest ih =>
    intro acc
    rw [List.foldl_cons, ih]
    cases h : getTmuxPanes.parseLine l with
    | none => simp [getTmuxPanes.iter, h]
    | some p => simp [getTmuxPanes.iter, h]

/-- What `getTmuxPanes` returns on any text: the records of the lines of the
trimmed text, in order. -/
theorem getTmuxPanes_ok (out : GoString) :
    getTmuxPanes (.ok out)
      = .ok ((strings.Split (strings.TrimSpace out) '\n').filterMap getTmuxPanes.parseLine) := by
  simp only [getTmuxPanes, getTmuxPanes.foldl_iter, List.nil_append]

/-- What `getTmuxPanes` returns on a text given by its lines: the records of
the trimmed lines, in order. -/
theorem getTmuxPanes_Join (ls : List GoString) (h : ∀ l ∈ ls, '\n' ∉ l) :
    getTmuxPanes (.ok (strings.Join ls '\n'))
      = .ok ((trimLines ls).filterMap getTmuxPanes.parseLine) := by
  rw [getTmuxPanes_ok, strings.TrimSpace_Join]
  by_cases hne : trimLines ls = []
  · rw [hne]
    rfl
  · rw [strings.Split_Join _ _ hne (not_mem_trimLines _ ls h)]

/-! ## Well-formed lines -/

theorem length_eq_six (fields : List GoString) (h : fields.length = 6) :
    ∃ a b c d e f, fields = [a, b, c, d, e, f] := by
  match fields, h with
  | [a, b, c, d, e, f], _ => exact ⟨a, b, c, d, e, f, rfl⟩

theorem strings.TrimLeftFunc_eq_self (s : GoString) (h : NoLeadingSpace s) :
    strings.TrimLeftFunc s unicode.IsSpace = s := by
  cases s with
  | nil => rfl
  | cons c cs =>
    have hc : unicode.IsSpace c = false := h c rfl
    simp [strings.TrimLeftFunc, List.dropWhile_cons, hc]

theorem strings.TrimRightFunc_eq_self (s : GoString) (h : NoTrailingSpace s) :
    strings.TrimRightFunc s unicode.IsSpace = s := by
  unfold strings.TrimRightFunc
  have h2 : NoLeadingSpace s.reverse := by
    intro c hc
    exact h c (by simpa using hc)
  have := strings.TrimLeftFunc_eq_self s.reverse h2
  unfold strings.TrimLeftFunc at this
  rw [this, List.reverse_reverse]

theorem isBlank_false_of_mem (s : GoString) (c : Char) (hc : c ∈ s)
    (hs : unicode.IsSpace c = false) : isBlank s = false := by
  unfold isBlank
  rw [List.all_eq_false]
  exact ⟨c, hc, by simp [hs]⟩

theorem getTmuxPanes.parseLine_six (a b c d e f : GoString)
    (h : ∀ x ∈ [a, b, c, d, e, f], '|' ∉ x) :
    getTmuxPanes.parseLine (strings.Join [a, b, c, d, e, f] '|')
      = some (paneOfFields coercedTimestamp [a, b, c, d, e, f]) := by
  have hs := strings.Split_Join [a, b, c, d, e, f] '|' (by simp) h
  have hne : strings.Join [a, b, c, d, e, f] '|' ≠ [] := by simp [strings.Join]
  unfold getTmuxPanes.parseLine
  rw [if_neg hne]
  simp only [hs, strconv.ParseUint_fst, paneOfFields]
  simp

theorem NoLeadingSpace_line (a : GoString) (rest : GoString) (h : NoLeadingSpace a) :
    NoLeadingSpace (a ++ '|' :: rest) := by
  intro c hc
  cases a with
  | nil =>
    simp only [List.nil_append, List.head?_cons, Option.some.injEq] at hc
    subst hc
    decide
  | cons x xs => exact h c (by simpa using hc)

theorem NoTrailingSpace_line (init : GoString) (f : GoString) (h : NoTrailingSpace f) :
    NoTrailingSpace (init ++ '|' :: f) := by
  intro c hc
  cases hf : f.getLast? with
  | none =>
    have e : f = [] := by simpa using hf
    subst e
    have : c = '|' := by
      have e2 : init ++ ['|'] = init.concat '|' := by simp
      rw [e2, List.concat_eq_append, List.getLast?_concat] at hc
      exact (Option.some.inj hc).symm
    subst this
    decide
  | some y =>
    have e2 : (init ++ '|' :: f).getLast? = some y := by
      have e3 : init ++ '|' :: f = (init ++ ['|']) ++ f := by simp
      rw [e3, List.getLast?_append, hf]
      rfl
    rw [e2] at hc
    exact h c (hc ▸ hf)

theorem trimLeftLines_eq_self (l : GoString) (rest : List GoString)
    (hb : isBlank l = false) (hl : NoLeadingSpace l) :
    trimLeftLines (l :: rest) = l :: rest := by
  simp only [trimLeftLines, hb, Bool.false_eq_true, if_false,
    strings.TrimLeftFunc_eq_self l hl]

theorem trimRightLines_concat_blank (ls : List GoString) (l : GoString)
    (hb : isBlank l = true) : trimRightLines (ls ++ [l]) = trimRightLines ls := by
  rw [trimRightLines_concat, if_pos hb]

theorem trimRightLines_concat_of_not_blank (ls : List GoString) (l : GoString)
    (hb : isBlank l = false) :
    trimRightLines (ls ++ [l]) = ls ++ [strings.TrimRightFunc l unicode.IsSpace] := by
  rw [trimRightLines_concat, if_neg (by simp [hb])]

/-- The lines of a text whose first line does not begin with white space,
whose last line does not end with white space and that has no blank line stay
as they are when the text is trimmed. -/
theorem trimLines_textOfLines (ls : List GoString)
    (hb : ∀ l ∈ ls, isBlank l = false)
    (hfirst : ∀ l, ls.head? = some l → NoLeadingSpace l)
    (hlast : ∀ l, ls.getLast? = some l → NoTrailingSpace l) :
    trimLines (ls ++ [[]]) = ls := by
  cases ls with
  | nil => rfl
  | cons a rest =>
    unfold trimLines
    rw [List.cons_append, trimLeftLines_eq_self a _ (hb a (by simp)) (hfirst a rfl),
      ← List.cons_append, trimRightLines_concat_blank _ _ (by decide)]
    rcases List.eq_nil_or_concat (a :: rest) with e | ⟨init, b, e⟩
    · exact absurd e (by simp)
    · rw [List.concat_eq_append] at e
      have hbl : (a :: rest).getLast? = some b := by rw [e]; exact List.getLast?_concat _
      have hbm : b ∈ a :: rest := by rw [e]; simp
      rw [e, trimRightLines_concat_of_not_blank _ _ (hb b hbm),
        strings.TrimRightFunc_eq_self b (hlast b hbl)]

theorem WellFormedRecords.line_facts (fields : List GoString)
    (h : fields.length = 6 ∧ ∀ f ∈ fields, '|' ∉ f ∧ '\n' ∉ f) :
    isBlank (strings.Join fields '|') = false ∧
    '\n' ∉ strings.Join fields '|' ∧
    (NoLeadingSpace (fields.getD 0 []) → NoLeadingSpace (strings.Join fields '|')) ∧
    (NoTrailingSpace (fields.getD 5 []) → NoTrailingSpace (strings.Join fields '|')) ∧
    getTmuxPanes.parseLine (strings.Join fields '|')
      = some (paneOfFields coercedTimestamp fields) := by
  obtain ⟨a, b, c, d, e, f, rfl⟩ := length_eq_six fields h.1
  have hf := h.2
  refine ⟨?_, ?_, ?_, ?_, ?_⟩
  · exact isBlank_false_of_mem _ '|' (by simp [strings.Join]) (by decide)
  · have ha := (hf a (by simp)).2
    have hb := (hf b (by simp)).2
    have hc := (hf c (by simp)).2
    have hd := (hf d (by simp)).2
    have he := (hf e (by simp)).2
    have hf2 := (hf f (by simp)).2
    simp [strings.Join, ha, hb, hc, hd, he, hf2]
  · intro h0
    exact NoLeadingSpace_line a _ h0
  · intro h5
    have e5 : strings.Join [a, b, c, d, e, f] '|'
        = (a ++ '|' :: b ++ '|' :: c ++ '|' :: d ++ '|' :: e) ++ '|' :: f := by
      simp [strings.Join]
    rw [e5]
    exact NoTrailingSpace_line _ f h5
  · exact getTmuxPanes.parseLine_six a b c d e f (fun x hx => (hf x hx).1)

theorem getTmuxPanes.filterMap_lines (records : List (List GoString))
    (hwf : WellFormedRecords records) :
    (records.map (fun fields => strings.Join fields '|')).filterMap getTmuxPanes.parseLine
      = records.map (paneOfFields coercedTimestamp) := by
  induction records with
  | nil => rfl
  | cons r rest ih =>
    have hr := (WellFormedRecords.line_facts r (hwf r (List.mem_cons_self _ _))).2.2.2.2
    have hrest : WellFormedRecords rest := fun x hx => hwf x (List.mem_cons_of_mem _ hx)
    rw [List.map_cons, List.filterMap_cons_some hr, ih hrest, List.map_cons]

/-- C1, as the claim states it, fails on two well-formed listing texts of one
line each.  With the timestamp field `18446744073709551616` the record gets
the timestamp `2^64 - 1`, not the numeric value of the field; with the sixth
field `1` followed by a blank, at the end of the text, the record is active
although that field is not the string `1`. -/
theorem getTmuxPanes_wellFormed_as_stated_fails :
    (WellFormedRecords overflowRecords ∧
      getTmuxPanes (.ok (listingText overflowRecords))
        = .ok [⟨"main".toList, "0".toList, "0".toList, "bash".toList, 18446744073709551615,
            true, "main:0.0".toList⟩] ∧
      overflowRecords.map (paneOfFields statedTimestamp)
        = [⟨"main".toList, "0".toList, "0".toList, "bash".toList, 18446744073709551616,
            true, "main:0.0".toList⟩]) ∧
    (WellFormedRecords paddedRecords ∧
      getTmuxPanes (.ok (listingText paddedRecords))
        = .ok [⟨"main".toList, "0".toList, "1".toList, "vim".toList, 2000,
            true, "main:0.1".toList⟩] ∧
      paddedRecords.map (paneOfFields statedTimestamp)
        = [⟨"main".toList, "0".toList, "1".toList, "vim".toList, 2000,
            false, "main:0.1".toList⟩]) := by
  refine ⟨⟨?_, ?_, ?_⟩, ⟨?_, ?_, ?_⟩⟩
  · unfold WellFormedRecords; decide
  · rfl
  · decide
  · unfold WellFormedRecords; decide
  · rfl
  · decide

/-- C1, amended: for every listing text made of well-formed lines (exactly 6
fields each) whose first line does not begin with white space and whose last
line does not end with white space, `getTmuxPanes` succeeds and returns one
record per line, in order; record `k` has sessionName, windowIndex, paneIndex
and title equal to fields 0..3 of line `k`, isActive equal to
(field 5 = `1`), and lastUsedTimestamp equal to `2^64 - 1` when the leading
digits of field 4 denote `2^64` or more, else to the numeric value of field 4
when it is a decimal unsigned integer, else to 0.  In particular the empty
listing text parses to the empty sequence. -/
theorem getTmuxPanes_wellFormed (records : List (List GoString))
    (hwf : WellFormedRecords records)
    (hfirst : ∀ fields, records.head? = some fields → NoLeadingSpace (fields.getD 0 []))
    (hlast : ∀ fields, records.getLast? = some fields → NoTrailingSpace (fields.getD 5 [])) :
    getTmuxPanes (.ok (listingText records))
      = .ok (records.map (paneOfFields coercedTimestamp)) ∧
    getTmuxPanes (.ok []) = .ok [] := by
  refine ⟨?_, rfl⟩
  have hnl : ∀ l ∈ records.map (fun fields => strings.Join fields '|') ++ [[]],
      '\n' ∉ l := by
    intro l hl
    rcases List.mem_append.mp hl with h1 | h1
    · obtain ⟨r, hr, rfl⟩ := List.mem_map.mp h1
      exact (WellFormedRecords.line_facts r (hwf r hr)).2.1
    · have e : l = [] := by simpa using h1
      subst e
      simp
  have hb : ∀ l ∈ records.map (fun fields => strings.Join fields '|'),
      isBlank l = false := by
    intro l hl
    obtain ⟨r, hr, rfl⟩ := List.mem_map.mp hl
    exact (WellFormedRecords.line_facts r (hwf r hr)).1
  have h1 : ∀ l, (records.map (fun fields => strings.Join fields '|')).head? = some l →
      NoLeadingSpace l := by
    intro l hl
    rw [List.head?_map] at hl
    cases hh : records.head? with
    | none => rw [hh] at hl; exact absurd hl (by simp)
    | some r =>
      rw [hh] at hl
      have e : strings.Join r '|' = l := by simpa using hl
      subst e
      exact (WellFormedRecords.line_facts r (hwf r (List.mem_of_mem_head? hh))).2.2.1
        (hfirst r hh)
  have h2 : ∀ l, (records.map (fun fields => strings.Join fields '|')).getLast? = some l →
      NoTrailingSpace l := by
    intro l hl
    rw [List.getLast?_map] at hl
    cases hh : records.getLast? with
    | none => rw [hh] at hl; exact absurd hl (by simp)
    | some r =>
      rw [hh] at hl
      have e : strings.Join r '|' = l := by simpa using hl
      subst e
      exact (WellFormedRecords.line_facts r (hwf r (List.mem_of_getLast?_eq_some hh))).2.2.2.1
        (hlast r hh)
  unfold listingText textOfLines
  rw [getTmuxPanes_Join _ hnl, trimLines_textOfLines _ hb h1 h2,
    getTmuxPanes.filterMap_lines records hwf]

/-- C1, witness: the listing text of Scenario A parses to the three records of
Scenario A. -/
theorem getTmuxPanes_wellFormed_scenarioA :
    (getTmuxPanes (.ok (listingText scenarioARecords))
        = .ok (scenarioARecords.map (paneOfFields coercedTimestamp)) ∧
      getTmuxPanes (.ok []) = .ok []) ∧
    scenarioARecords.map (paneOfFields coercedTimestamp) = scenarioA ∧
    listingText scenarioARecords
      = "main|0|0|bash|1000|0\nmain|0|1|vim|2000|1\nmain|1|0|bash|500|0\n".toList :=
  ⟨getTmuxPanes_wellFormed scenarioARecords (by unfold WellFormedRecords; decide)
      (by
        intro fields h
        have e : fields = ["main".toList, "0".toList, "0".toList, "bash".toList,
            "1000".toList, "0".toList] := (Option.some.inj h).symm
        subst e
        intro c hc
        have e2 : c = 'm' := (Option.some.inj hc).symm
        subst e2
        decide)
      (by
        intro fields h
        have e : fields = ["main".toList, "1".toList, "0".toList, "bash".toList,
            "500".toList, "0".toList] := (Option.some.inj h).symm
        subst e
        intro c hc
        have e2 : c = '0' := (Option.some.inj hc).symm
        subst e2
        decide),
    by decide, by decide⟩

/-! ## Single lines -/

theorem strings.Split_nil (sep : Char) : strings.Split [] sep = [[]] := rfl

theorem getTmuxPanes.parseLine_of_six_le (line : GoString)
    (h6 : 6 ≤ (strings.Split line '|').length) :
    getTmuxPanes.parseLine line
      = some (paneOfFields coercedTimestamp (strings.Split line '|')) := by
  have hne : line ≠ [] := by
    intro e
    rw [e, strings.Split_nil] at h6
    simp at h6
  unfold getTmuxPanes.parseLine
  rw [if_neg hne]
  simp only [paneOfFields, strconv.ParseUint_fst]
  rw [if_neg (by omega)]

theorem getTmuxPanes.parseLine_of_lt_six (line : GoString)
    (h6 : (strings.Split line '|').length < 6) :
    getTmuxPanes.parseLine line = none := by
  unfold getTmuxPanes.parseLine
  by_cases hne : line = []
  · rw [if_pos hne]
  · rw [if_neg hne]
    simp only [h6, if_true]

theorem coercedTimestamp_eq_zero (f : GoString) (hbad : isDecimalNumeral f = false)
    (hsmall : decimalValue (f.takeWhile isDecimalDigit) < 2 ^ 64) :
    coercedTimestamp f = 0 := by
  unfold coercedTimestamp
  rw [if_neg (by omega), hbad]
  rfl

/-- C3, as the claim states it, fails: the line
`main|0|1|vim|99999999999999999999x|1` has 6 fields and a timestamp field that
is not a decimal unsigned integer, yet its record has the timestamp
`2^64 - 1`, because `ParseUint` stops at the digit that overflows and returns
the largest value. -/
theorem getTmuxPanes_bad_timestamp_as_stated_fails :
    (strings.Split "main|0|1|vim|99999999999999999999x|1".toList '|').length = 6 ∧
    isDecimalNumeral
      ((strings.Split "main|0|1|vim|99999999999999999999x|1".toList '|').getD 4 []) = false ∧
    getTmuxPanes.parseLine "main|0|1|vim|99999999999999999999x|1".toList
      = some ⟨"main".toList, "0".toList, "1".toList, "vim".toList, 18446744073709551615,
          true, "main:0.1".toList⟩ ∧
    getTmuxPanes (.ok "main|0|1|vim|99999999999999999999x|1\n".toList)
      = .ok [⟨"main".toList, "0".toList, "1".toList, "vim".toList, 18446744073709551615,
          true, "main:0.1".toList⟩] := by
  refine ⟨by decide, by decide, by decide, rfl⟩

/-- C3, amended: every line with at least 6 fields whose timestamp field is
not a decimal unsigned integer, and whose leading digits (if any) denote less
than `2^64`, yields a record; that record has lastUsedTimestamp 0 and its other
fields are those of the line, the same as for a line that differs in the
timestamp field only; the acquisition of a text that holds the line does not
fail and returns the record. -/
theorem getTmuxPanes_bad_timestamp (line : GoString)
    (h6 : 6 ≤ (strings.Split line '|').length)
    (hbad : isDecimalNumeral ((strings.Split line '|').getD 4 []) = false)
    (hsmall : decimalValue
      (((strings.Split line '|').getD 4 []).takeWhile isDecimalDigit) < 2 ^ 64) :
    getTmuxPanes.parseLine line
      = some (paneOfFields (fun _ => 0) (strings.Split line '|')) ∧
    (∀ line2 ts : GoString,
      strings.Split line2 '|' = (strings.Split line '|').set 4 ts →
      getTmuxPanes.parseLine line2
        = some { paneOfFields (fun _ => 0) (strings.Split line '|') with
            LastUsed := coercedTimestamp ts }) ∧
    (∀ out : GoString, line ∈ strings.Split (strings.TrimSpace out) '\n' →
      ∃ panes, getTmuxPanes (.ok out) = .ok panes ∧
        paneOfFields (fun _ => 0) (strings.Split line '|') ∈ panes) := by
  have h0 : getTmuxPanes.parseLine line
      = some (paneOfFields (fun _ => 0) (strings.Split line '|')) := by
    rw [getTmuxPanes.parseLine_of_six_le line h6]
    simp only [paneOfFields, coercedTimestamp_eq_zero _ hbad hsmall]
  refine ⟨h0, ?_, ?_⟩
  · intro line2 ts h2
    have h62 : 6 ≤ (strings.Split line2 '|').length := by
      rw [h2, List.length_set]; exact h6
    rw [getTmuxPanes.parseLine_of_six_le line2 h62, h2]
    have hlen : 4 < (strings.Split line '|').length := by omega
    simp [paneOfFields, List.getD_eq_getElem?_getD, List.getElem?_set, hlen]
  · intro out hmem
    refine ⟨_, getTmuxPanes_ok out, ?_⟩
    rw [List.mem_filterMap]
    exact ⟨line, hmem, h0⟩

/-- C3, witness: the line `main|0|1|vim|12ab|1`, whose timestamp field holds
letters, yields a record with timestamp 0. -/
theorem getTmuxPanes_bad_timestamp_witness :
    (getTmuxPanes.parseLine "main|0|1|vim|12ab|1".toList
      = some (paneOfFields (fun _ => 0) (strings.Split "main|0|1|vim|12ab|1".toList '|')) ∧
    (∀ line2 ts : GoString,
      strings.Split line2 '|' = (strings.Split "main|0|1|vim|12ab|1".toList '|').set 4 ts →
      getTmuxPanes.parseLine line2
        = some { paneOfFields (fun _ => 0) (strings.Split "main|0|1|vim|12ab|1".toList '|') with
            LastUsed := coercedTimestamp ts }) ∧
    (∀ out : GoString,
      "main|0|1|vim|12ab|1".toList ∈ strings.Split (strings.TrimSpace out) '\n' →
      ∃ panes, getTmuxPanes (.ok out) = .ok panes ∧
        paneOfFields (fun _ => 0) (strings.Split "main|0|1|vim|12ab|1".toList '|') ∈ panes)) ∧
    paneOfFields (fun _ => 0) (strings.Split "main|0|1|vim|12ab|1".toList '|')
      = ⟨"main".toList, "0".toList, "1".toList, "vim".toList, 0, true, "main:0.1".toList⟩ :=
  ⟨getTmuxPanes_bad_timestamp "main|0|1|vim|12ab|1".toList (by decide) (by decide) (by decide),
    by decide⟩

/-! ## The active flag -/

/-- C4, as the claim states it, fails: the only line of the listing text
`main|0|1|vim|2000|1 ` (newline-ended) has the sixth field `1` followed by a
blank, which is not the string `1`, yet its record is active, because the
blank is trimmed with the end of the text before the line is split. -/
theorem getTmuxPanes_isActive_as_stated_fails :
    strings.Split "main|0|1|vim|2000|1 \n".toList '\n'
      = ["main|0|1|vim|2000|1 ".toList, []] ∧
    (strings.Split "main|0|1|vim|2000|1 ".toList '|').getD 5 [] = "1 ".toList ∧
    "1 ".toList ≠ "1".toList ∧
    getTmuxPanes (.ok "main|0|1|vim|2000|1 \n".toList)
      = .ok [⟨"main".toList, "0".toList, "1".toList, "vim".toList, 2000, true,
          "main:0.1".toList⟩] := by
  refine ⟨by decide, by decide, by decide, rfl⟩

/-- C4, amended: for every listing text, the records are those of the lines of
the text once the white space at its two ends is removed, and for every such
line that yields a record the record's isActive is true if and only if the
line's sixth field is exactly the string `1`.  The lines of the trimmed text
are the lines of the text, except that the blank lines at its two ends are
gone, the first line left has lost its leading white space and the last line
left has lost its trailing white space (`trimLines`). -/
theorem getTmuxPanes_isActive (out : GoString) :
    getTmuxPanes (.ok out)
      = .ok ((strings.Split (strings.TrimSpace out) '\n').filterMap getTmuxPanes.parseLine) ∧
    (∀ line r, getTmuxPanes.parseLine line = some r →
      (r.IsActive = true ↔ (strings.Split line '|').getD 5 [] = ['1'])) ∧
    (∀ ls : List GoString, (∀ l ∈ ls, '\n' ∉ l) → out = strings.Join ls '\n' →
      strings.Split (strings.TrimSpace out) '\n'
        = if trimLines ls = [] then [[]] else trimLines ls) := by
  refine ⟨getTmuxPanes_ok out, ?_, ?_⟩
  · intro line r h
    by_cases h6 : (strings.Split line '|').length < 6
    · rw [getTmuxPanes.parseLine_of_lt_six line h6] at h
      exact absurd h (by simp)
    · rw [getTmuxPanes.parseLine_of_six_le line (by omega)] at h
      have e := Option.some.inj h
      subst e
      simp [paneOfFields]
  · intro ls hnl e
    subst e
    rw [strings.TrimSpace_Join]
    by_cases hne : trimLines ls = []
    · rw [hne, if_pos rfl]
      rfl
    · rw [if_neg hne, strings.Split_Join _ _ hne (not_mem_trimLines _ ls hnl)]

/-! ## A malformed line -/

theorem isBlank_TrimLeftFunc (a : GoString) (h : isBlank a = false) :
    isBlank (strings.TrimLeftFunc a unicode.IsSpace) = false := by
  have hne : a.dropWhile unicode.IsSpace ≠ [] := by
    intro e
    rw [List.dropWhile_eq_nil_iff] at e
    have : isBlank a = true := by simpa [isBlank] using e
    rw [h] at this
    exact absurd this (by decide)
  have hhead := List.head_dropWhile_not unicode.IsSpace a hne
  exact isBlank_false_of_mem _ _ (List.head_mem hne) hhead

theorem NoTrailingSpace_TrimLeftFunc (a : GoString) (h : NoTrailingSpace a) :
    NoTrailingSpace (strings.TrimLeftFunc a unicode.IsSpace) := by
  intro c hc
  apply h c
  have e : a = a.takeWhile unicode.IsSpace ++ a.dropWhile unicode.IsSpace :=
    (List.takeWhile_append_dropWhile _ _).symm
  rw [e, List.getLast?_append]
  unfold strings.TrimLeftFunc at hc
  rw [hc]
  rfl

theorem strings.TrimLeftFunc_sublist (a : GoString) (f : Char → Bool) :
    (strings.TrimLeftFunc a f).Sublist a :=
  List.dropWhile_sublist f

theorem strings.TrimRightFunc_sublist (a : GoString) (f : Char → Bool) :
    (strings.TrimRightFunc a f).Sublist a := by
  unfold strings.TrimRightFunc
  have h : (a.reverse.dropWhile f).Sublist a.reverse := List.dropWhile_sublist f
  have h2 := h.reverse
  rwa [List.reverse_reverse] at h2

theorem getTmuxPanes.parseLine_of_sublist (x bad : GoString) (hx : x.Sublist bad)
    (hbad : (strings.Split bad '|').length < 6) :
    getTmuxPanes.parseLine x = none := by
  apply getTmuxPanes.parseLine_of_lt_six
  rw [strings.Split_length] at hbad ⊢
  have := hx.count_le '|'
  omega

theorem trimLeftLines_cons_blank (l : GoString) (rest : List GoString)
    (h : isBlank l = true) : trimLeftLines (l :: rest) = trimLeftLines rest := by
  simp only [trimLeftLines, h, if_true]

theorem trimLeftLines_cons_of_not_blank (l : GoString) (rest : List GoString)
    (h : isBlank l = false) :
    trimLeftLines (l :: rest) = strings.TrimLeftFunc l unicode.IsSpace :: rest := by
  simp only [trimLeftLines, h, Bool.false_eq_true, if_false]

/-- Line by line: a line with fewer than 6 fields among lines that are not
blank changes nothing in the records of the trimmed lines, unless it is the
first or the last line and shields the next line from the trimming. -/
theorem getTmuxPanes.filterMap_malformed (A B : List GoString) (bad : GoString)
    (hA : ∀ l ∈ A, isBlank l = false) (hB : ∀ l ∈ B, isBlank l = false)
    (hbad : (strings.Split bad '|').length < 6)
    (hfirst : A = [] → isBlank bad = true ∨ ∀ l, B.head? = some l → NoLeadingSpace l)
    (hlast : B = [] → isBlank bad = true ∨ ∀ l, A.getLast? = some l → NoTrailingSpace l) :
    (trimLines (A ++ [bad] ++ B ++ [[]])).filterMap getTmuxPanes.parseLine
      = (trimLines (A ++ B ++ [[]])).filterMap getTmuxPanes.parseLine := by
  have hnone : getTmuxPanes.parseLine bad = none :=
    getTmuxPanes.parseLine_of_lt_six bad hbad
  have hnoneL : getTmuxPanes.parseLine (strings.TrimLeftFunc bad unicode.IsSpace) = none :=
    getTmuxPanes.parseLine_of_sublist _ bad (strings.TrimLeftFunc_sublist _ _) hbad
  have hnoneR : getTmuxPanes.parseLine (strings.TrimRightFunc bad unicode.IsSpace) = none :=
    getTmuxPanes.parseLine_of_sublist _ bad (strings.TrimRightFunc_sublist _ _) hbad
  have hnoneLR : getTmuxPanes.parseLine
      (strings.TrimRightFunc (strings.TrimLeftFunc bad unicode.IsSpace) unicode.IsSpace)
      = none :=
    getTmuxPanes.parseLine_of_sublist _ bad
      ((strings.TrimRightFunc_sublist _ _).trans (strings.TrimLeftFunc_sublist _ _)) hbad
  have hnil : isBlank ([] : GoString) = true := rfl
  unfold trimLines
  cases A with
  | nil =>
    have e0 : ([] : List GoString) ++ [bad] ++ B ++ [[]] = bad :: (B ++ [[]]) := by simp
    rw [e0, List.nil_append]
    by_cases hbl : isBlank bad = true
    · rw [trimLeftLines_cons_blank _ _ hbl]
    · have hbl2 : isBlank bad = false := by simpa using hbl
      have hf : ∀ l, B.head? = some l → NoLeadingSpace l := by
        rcases hfirst rfl with h | h
        · exact absurd h hbl
        · exact h
      rw [trimLeftLines_cons_of_not_blank _ _ hbl2]
      rcases List.eq_nil_or_concat B with e | ⟨Binit, bl, e⟩
      · subst e
        have e1 : strings.TrimLeftFunc bad unicode.IsSpace :: (([] : List GoString) ++ [[]])
            = ([] ++ [strings.TrimLeftFunc bad unicode.IsSpace]) ++ [[]] := rfl
        rw [e1, trimRightLines_concat_blank _ _ hnil,
          trimRightLines_concat_of_not_blank _ _ (isBlank_TrimLeftFunc bad hbl2),
          List.nil_append, List.filterMap_cons_none hnoneLR]
        rfl
      · rw [List.concat_eq_append] at e
        subst e
        have hblb : isBlank bl = false := hB bl (by simp)
        have e1 : strings.TrimLeftFunc bad unicode.IsSpace :: (Binit ++ [bl] ++ [[]])
            = ((strings.TrimLeftFunc bad unicode.IsSpace :: Binit) ++ [bl]) ++ [[]] := by simp
        have e3 : trimLeftLines (Binit ++ [bl] ++ [[]]) = Binit ++ [bl] ++ [[]] := by
          cases Binit with
          | nil =>
            exact trimLeftLines_eq_self bl _ hblb (hf bl rfl)
          | cons b0 Brest =>
            exact trimLeftLines_eq_self b0 _ (hB b0 (by simp)) (hf b0 rfl)
        rw [e1, e3, trimRightLines_concat_blank _ _ hnil, trimRightLines_concat_blank _ _ hnil,
          trimRightLines_concat_of_not_blank _ _ hblb,
          trimRightLines_concat_of_not_blank _ _ hblb, List.cons_append,
          List.filterMap_cons_none hnoneL]
  | cons a A2 =>
    have hba : isBlank a = false := hA a (by simp)
    have hba2 := isBlank_TrimLeftFunc a hba
    have e0 : a :: A2 ++ [bad] ++ B ++ [[]] = a :: (A2 ++ [bad] ++ B ++ [[]]) := by simp
    have e0b : a :: A2 ++ B ++ [[]] = a :: (A2 ++ B ++ [[]]) := by simp
    rw [e0, e0b, trimLeftLines_cons_of_not_blank _ _ hba,
      trimLeftLines_cons_of_not_blank _ _ hba]
    rcases List.eq_nil_or_concat B with e | ⟨Binit, bl, e⟩
    · subst e
      have e1 : strings.TrimLeftFunc a unicode.IsSpace :: (A2 ++ [bad] ++ [] ++ [[]])
          = ((strings.TrimLeftFunc a unicode.IsSpace :: A2) ++ [bad]) ++ [[]] := by simp
      have e2 : strings.TrimLeftFunc a unicode.IsSpace :: (A2 ++ [] ++ [[]])
          = (strings.TrimLeftFunc a unicode.IsSpace :: A2) ++ [[]] := by simp
      rw [e1, e2, trimRightLines_concat_blank _ _ hnil, trimRightLines_concat_blank _ _ hnil]
      by_cases hbl : isBlank bad = true
      · rw [trimRightLines_concat_blank _ _ hbl]
      · have hbl2 : isBlank bad = false := by simpa using hbl
        have hl : ∀ l, (a :: A2).getLast? = some l → NoTrailingSpace l := by
          rcases hlast rfl with h | h
          · exact absurd h hbl
          · exact h
        rw [trimRightLines_concat_of_not_blank _ _ hbl2, List.filterMap_append,
          List.filterMap_cons_none hnoneR, List.filterMap_nil, List.append_nil]
        rcases List.eq_nil_or_concat A2 with e | ⟨Ainit, al, e⟩
        · subst e
          have e3 : [strings.TrimLeftFunc a unicode.IsSpace]
              = [] ++ [strings.TrimLeftFunc a unicode.IsSpace] := rfl
          rw [e3, trimRightLines_concat_of_not_blank _ _ hba2,
            strings.TrimRightFunc_eq_self _ (NoTrailingSpace_TrimLeftFunc a (hl a rfl))]
        · rw [List.concat_eq_append] at e
          subst e
          have hal : (a :: (Ainit ++ [al])).getLast? = some al := by
            rw [← List.cons_append]; exact List.getLast?_concat _
          rw [← List.cons_append,
            trimRightLines_concat_of_not_blank _ _ (hA al (by simp)),
            strings.TrimRightFunc_eq_self _ (hl al hal)]
    · rw [List.concat_eq_append] at e
      subst e
      have hblb : isBlank bl = false := hB bl (by simp)
      have e1 : strings.TrimLeftFunc a unicode.IsSpace :: (A2 ++ [bad] ++ (Binit ++ [bl]) ++ [[]])
          = ((strings.TrimLeftFunc a unicode.IsSpace :: (A2 ++ [bad] ++ Binit)) ++ [bl]) ++ [[]] := by
        simp
      have e2 : strings.TrimLeftFunc a unicode.IsSpace :: (A2 ++ (Binit ++ [bl]) ++ [[]])
          = ((strings.TrimLeftFunc a unicode.IsSpace :: (A2 ++ Binit)) ++ [bl]) ++ [[]] := by
        simp
      rw [e1, e2, trimRightLines_concat_blank _ _ hnil, trimRightLines_concat_blank _ _ hnil,
        trimRightLines_concat_of_not_blank _ _ hblb,
        trimRightLines_concat_of_not_blank _ _ hblb]
      have e5 : ∀ r : GoString,
          (strings.TrimLeftFunc a unicode.IsSpace :: (A2 ++ [bad] ++ Binit)) ++ [r]
            = (strings.TrimLeftFunc a unicode.IsSpace :: A2) ++ (bad :: (Binit ++ [r])) := by
        intro r; simp
      have e6 : ∀ r : GoString,
          (strings.TrimLeftFunc a unicode.IsSpace :: (A2 ++ Binit)) ++ [r]
            = (strings.TrimLeftFunc a unicode.IsSpace :: A2) ++ (Binit ++ [r]) := by
        intro r; simp
      rw [e5, e6, List.filterMap_append, List.filterMap_append,
        List.filterMap_cons_none hnone]

theorem linesOfRecords_facts (records : List (List GoString))
    (hwf : WellFormedRecords records) :
    (∀ l ∈ linesOfRecords records, isBlank l = false ∧ '\n' ∉ l) ∧
    ((∀ fields, records.head? = some fields → NoLeadingSpace (fields.getD 0 [])) →
      ∀ l, (linesOfRecords records).head? = some l → NoLeadingSpace l) ∧
    ((∀ fields, records.getLast? = some fields → NoTrailingSpace (fields.getD 5 [])) →
      ∀ l, (linesOfRecords records).getLast? = some l → NoTrailingSpace l) := by
  unfold linesOfRecords
  refine ⟨?_, ?_, ?_⟩
  · intro l hl
    obtain ⟨r, hr, rfl⟩ := List.mem_map.mp hl
    have hf := WellFormedRecords.line_facts r (hwf r hr)
    exact ⟨hf.1, hf.2.1⟩
  · intro h l hl
    rw [List.head?_map] at hl
    cases hh : records.head? with
    | none => rw [hh] at hl; exact absurd hl (by simp)
    | some r =>
      rw [hh] at hl
      have e : strings.Join r '|' = l := by simpa using hl
      subst e
      exact (WellFormedRecords.line_facts r (hwf r (List.mem_of_mem_head? hh))).2.2.1 (h r hh)
  · intro h l hl
    rw [List.getLast?_map] at hl
    cases hh : records.getLast? with
    | none => rw [hh] at hl; exact absurd hl (by simp)
    | some r =>
      rw [hh] at hl
      have e : strings.Join r '|' = l := by simpa using hl
      subst e
      exact (WellFormedRecords.line_facts r
        (hwf r (List.mem_of_getLast?_eq_some hh))).2.2.2.1 (h r hh)

/-- C2, as the claim states it, fails: in the listing text of the two lines
`main|0|1|vim|2000|1 ` (6 fields, the sixth `1` followed by a blank) and
`oops` (1 field), parsing gives one inactive record; with the line `oops`
removed it gives one active record, so the record of the adjacent valid line
is affected. -/
theorem getTmuxPanes_malformed_line_as_stated_fails :
    WellFormedRecords paddedRecords ∧
    (strings.Split "oops".toList '|').length < 6 ∧
    textOfLines (linesOfRecords paddedRecords ++ ["oops".toList] ++ linesOfRecords [])
      = "main|0|1|vim|2000|1 \noops\n".toList ∧
    textOfLines (linesOfRecords paddedRecords ++ linesOfRecords [])
      = "main|0|1|vim|2000|1 \n".toList ∧
    getTmuxPanes (.ok "main|0|1|vim|2000|1 \noops\n".toList)
      = .ok [⟨"main".toList, "0".toList, "1".toList, "vim".toList, 2000, false,
          "main:0.1".toList⟩] ∧
    getTmuxPanes (.ok "main|0|1|vim|2000|1 \n".toList)
      = .ok [⟨"main".toList, "0".toList, "1".toList, "vim".toList, 2000, true,
          "main:0.1".toList⟩] := by
  refine ⟨?_, by decide, by decide, by decide, rfl, rfl⟩
  unfold WellFormedRecords; decide

/-- C2, amended: for every listing text in which one line has fewer than 6
fields and every other line is well-formed, parsing succeeds and the result
equals the parse of the same text with that line removed, provided that, when
the line is the first of the text and is not blank, the line after it does not
begin with white space, and when it is the last of the text and is not blank,
the line before it does not end with white space. -/
theorem getTmuxPanes_malformed_line (pre post : List (List GoString)) (bad : GoString)
    (hpre : WellFormedRecords pre) (hpost : WellFormedRecords post)
    (hnl : '\n' ∉ bad) (hbad : (strings.Split bad '|').length < 6)
    (hfirst : pre = [] → isBlank bad = true ∨
      ∀ fields, post.head? = some fields → NoLeadingSpace (fields.getD 0 []))
    (hlast : post = [] → isBlank bad = true ∨
      ∀ fields, pre.getLast? = some fields → NoTrailingSpace (fields.getD 5 [])) :
    getTmuxPanes (.ok (textOfLines (linesOfRecords pre ++ [bad] ++ linesOfRecords post)))
      = getTmuxPanes (.ok (textOfLines (linesOfRecords pre ++ linesOfRecords post))) ∧
    ∃ panes,
      getTmuxPanes (.ok (textOfLines (linesOfRecords pre ++ [bad] ++ linesOfRecords post)))
        = .ok panes := by
  obtain ⟨hA, hAf, hAl⟩ := linesOfRecords_facts pre hpre
  obtain ⟨hB, hBf, hBl⟩ := linesOfRecords_facts post hpost
  have hnl1 : ∀ l ∈ linesOfRecords pre ++ [bad] ++ linesOfRecords post ++ [[]], '\n' ∉ l := by
    intro l hl
    simp only [List.mem_append, List.mem_singleton] at hl
    rcases hl with ((h | h) | h) | h
    · exact (hA l h).2
    · rw [h]; exact hnl
    · exact (hB l h).2
    · rw [h]; simp
  have hnl2 : ∀ l ∈ linesOfRecords pre ++ linesOfRecords post ++ [[]], '\n' ∉ l := by
    intro l hl
    simp only [List.mem_append, List.mem_singleton] at hl
    rcases hl with (h | h) | h
    · exact (hA l h).2
    · exact (hB l h).2
    · rw [h]; simp
  have hmain := getTmuxPanes.filterMap_malformed (linesOfRecords pre) (linesOfRecords post) bad
    (fun l hl => (hA l hl).1) (fun l hl => (hB l hl).1) hbad
    (by
      intro e
      have e2 : pre = [] := by simpa [linesOfRecords] using e
      rcases hfirst e2 with h | h
      · exact Or.inl h
      · exact Or.inr (hBf h))
    (by
      intro e
      have e2 : post = [] := by simpa [linesOfRecords] using e
      rcases hlast e2 with h | h
      · exact Or.inl h
      · exact Or.inr (hAl h))
  unfold textOfLines
  rw [getTmuxPanes_Join _ hnl1, getTmuxPanes_Join _ hnl2, hmain]
  exact ⟨rfl, _, rfl⟩

/-- C2, witness: in the listing text of Scenario A with the one-field line
`garbage` put after its first line, parsing gives the three records of
Scenario A. -/
theorem getTmuxPanes_malformed_line_witness :
    (getTmuxPanes (.ok (textOfLines (linesOfRecords (scenarioARecords.take 1)
        ++ ["garbage".toList] ++ linesOfRecords (scenarioARecords.drop 1))))
      = getTmuxPanes (.ok (textOfLines (linesOfRecords (scenarioARecords.take 1)
        ++ linesOfRecords (scenarioARecords.drop 1)))) ∧
    ∃ panes,
      getTmuxPanes (.ok (textOfLines (linesOfRecords (scenarioARecords.take 1)
        ++ ["garbage".toList] ++ linesOfRecords (scenarioARecords.drop 1))))
        = .ok panes) ∧
    textOfLines (linesOfRecords (scenarioARecords.take 1)
        ++ ["garbage".toList] ++ linesOfRecords (scenarioARecords.drop 1))
      = "main|0|0|bash|1000|0\ngarbage\nmain|0|1|vim|2000|1\nmain|1|0|bash|500|0\n".toList ∧
    getTmuxPanes
        (.ok "main|0|0|bash|1000|0\ngarbage\nmain|0|1|vim|2000|1\nmain|1|0|bash|500|0\n".toList)
      = .ok scenarioA :=
  ⟨getTmuxPanes_malformed_line (scenarioARecords.take 1) (scenarioARecords.drop 1)
      "garbage".toList (by unfold WellFormedRecords; decide)
      (by unfold WellFormedRecords; decide) (by decide) (by decide)
      (fun h => absurd h (by decide)) (fun h => absurd h (by decide)),
    by decide, rfl⟩

/-! ## Leaving the event loop -/

theorem interactivePaneSelector.loop_append (panes : List TmuxPane) (evs1 evs2 : List tcell.Event) :
    ∀ c c1 : Int, interactivePaneSelector.loop panes c evs1 = .Browsing c1 →
      interactivePaneSelector.loop panes c (evs1 ++ evs2)
        = interactivePaneSelector.loop panes c1 evs2 := by
  induction evs1 with
  | nil =>
    intro c c1 h
    simp only [interactivePaneSelector.loop, LoopState.Browsing.injEq] at h
    rw [h, List.nil_append]
  | cons ev evs ih =>
    intro c c1 h
    simp only [List.cons_append, interactivePaneSelector.loop] at h ⊢
    cases hs : interactivePaneSelector.step panes c ev with
    | Browsing next =>
      rw [hs] at h
      simp only at h ⊢
      exact ih next c1 h
    | Returned pane err => rw [hs] at h; simp at h
    | Panic => rw [hs] at h; simp at h

theorem interactivePaneSelector.loop_single (panes : List TmuxPane) (c : Int)
    (ev : tcell.Event) (out : LoopState)
    (h : interactivePaneSelector.step panes c ev = out) (hout : ∀ c2, out ≠ .Browsing c2) :
    interactivePaneSelector.loop panes c [ev] = out := by
  simp only [interactivePaneSelector.loop, h]
  cases out with
  | Browsing c2 => exact absurd rfl (hout c2)
  | Returned pane err => rfl
  | Panic => rfl

theorem interactivePaneSelector.step_accept (panes : List TmuxPane) (c : Int)
    (ev : tcell.Event) (hev : isAccept ev = true) :
    interactivePaneSelector.step panes c ev = interactivePaneSelector.accept panes c := by
  cases ev with
  | EventKey key r =>
    cases key <;> simp only [isAccept, interactivePaneSelector.step] at hev ⊢ <;>
      exact absurd hev (by decide)
  | EventResize => exact absurd hev (by decide)
  | otherEvent => exact absurd hev (by decide)

theorem interactivePaneSelector.step_cancel (panes : List TmuxPane) (c : Int)
    (ev : tcell.Event) (hev : isCancel ev = true) :
    interactivePaneSelector.step panes c ev = .Returned none none := by
  cases ev with
  | EventKey key r =>
    cases key <;> simp only [isCancel, interactivePaneSelector.step] at hev ⊢ <;>
      try exact absurd hev (by decide)
    simp only [List.mem_cons, List.mem_singleton, List.not_mem_nil, or_false,
      decide_eq_true_eq] at hev
    rcases hev with h | h <;> subst h <;> rfl
  | EventResize => exact absurd hev (by decide)
  | otherEvent => exact absurd hev (by decide)

/-- C11: for every snapshot with `n > 0` panes, every cursor `i` in `[0, n)`
and every sequence of events that led the loop from its start cursor to
`Browsing` at `i`, an accept input (enter) ends the loop returning exactly the
record `snapshot[i]`, with no error. -/
theorem interactivePaneSelector_commit (panes : List TmuxPane) (_hn : 0 < panes.length)
    (i : Int) (hi0 : 0 ≤ i) (hi : i < panes.length)
    (start : Int) (history : List tcell.Event)
    (hreach : interactivePaneSelector.loop panes start history = .Browsing i)
    (ev : tcell.Event) (hev : isAccept ev = true) :
    ∃ p, panes[i.toNat]? = some p ∧
      interactivePaneSelector.step panes i ev = .Returned (some p) none ∧
      interactivePaneSelector.loop panes start (history ++ [ev]) = .Returned (some p) none := by
  obtain ⟨p, hp, hacc⟩ := interactivePaneSelector.accept_eq panes i hi0 hi
  have hstep : interactivePaneSelector.step panes i ev = .Returned (some p) none := by
    rw [interactivePaneSelector.step_accept panes i ev hev, hacc]
  refine ⟨p, hp, hstep, ?_⟩
  rw [interactivePaneSelector.loop_append panes history [ev] start i hreach]
  exact interactivePaneSelector.loop_single panes i ev _ hstep (by simp)

/-- C11, witness: on Scenario A, started at cursor 1, after one move down the
loop is at cursor 2 and enter returns the third record of the snapshot. -/
theorem interactivePaneSelector_commit_witness :
    (∃ p, scenarioA[(2 : Int).toNat]? = some p ∧
      interactivePaneSelector.step scenarioA 2 (.EventKey .KeyEnter '\r')
        = .Returned (some p) none ∧
      interactivePaneSelector.loop scenarioA 1
        ([.EventKey .KeyDown 'x'] ++ [.EventKey .KeyEnter '\r']) = .Returned (some p) none) ∧
    interactivePaneSelector.loop scenarioA 1 [.EventKey .KeyDown 'x', .EventKey .KeyEnter '\r']
      = .Returned (some ⟨"main".toList, "1".toList, "0".toList, "bash".toList, 500, false,
          "main:1.0".toList⟩) none :=
  ⟨interactivePaneSelector_commit scenarioA (by decide) 2 (by decide) (by decide) 1
      [.EventKey .KeyDown 'x'] (by decide) (.EventKey .KeyEnter '\r') (by decide),
    by decide⟩

theorem interactivePaneSelector.loop_moves (panes : List TmuxPane)
    (history : List tcell.Event)
    (hnav : ∀ e ∈ history, isMoveBackward e = true ∨ isMoveForward e = true) :
    ∀ c : Int, 0 ≤ c → c < panes.length →
      ∃ c2 : Int, interactivePaneSelector.loop panes c history = .Browsing c2 ∧
        0 ≤ c2 ∧ c2 < panes.length := by
  induction history with
  | nil => intro c h0 h1; exact ⟨c, rfl, h0, h1⟩
  | cons ev evs ih =>
    intro c h0 h1
    have hrest : ∀ e ∈ evs, isMoveBackward e = true ∨ isMoveForward e = true :=
      fun e he => hnav e (List.mem_cons_of_mem _ he)
    have hstep : ∃ c1 : Int, interactivePaneSelector.step panes c ev = .Browsing c1 ∧
        0 ≤ c1 ∧ c1 < panes.length := by
      rcases hnav ev (List.mem_cons_self _ _) with hb | hf
      · rw [interactivePaneSelector.step_backward panes c ev hb]
        exact interactivePaneSelector.movePrev_range panes c h0 h1
      · rw [interactivePaneSelector.step_forward panes c ev hf]
        exact interactivePaneSelector.moveNext_range panes c h0 h1
    obtain ⟨c1, hs, h10, h11⟩ := hstep
    simp only [interactivePaneSelector.loop, hs]
    exact ih hrest c1 h10 h11

theorem interactivePaneSelector.loop_cancel (panes : List TmuxPane)
    (c0 : Int) (hc0 : 0 ≤ c0) (hc : c0 < panes.length)
    (history : List tcell.Event)
    (hnav : ∀ e ∈ history, isMoveBackward e = true ∨ isMoveForward e = true)
    (ev : tcell.Event) (hev : isCancel ev = true) :
    interactivePaneSelector.loop panes c0 (history ++ [ev]) = .Returned none none := by
  obtain ⟨c, hreach, -, -⟩ := interactivePaneSelector.loop_moves panes history hnav c0 hc0 hc
  rw [interactivePaneSelector.loop_append panes history [ev] c0 c hreach]
  exact interactivePaneSelector.loop_single panes c ev _
    (interactivePaneSelector.step_cancel panes c ev hev) (by simp)

/-- A run in interactive mode, inside tmux, with a listing that parses to
`panes` and a screen that opens, ends as the event loop ends. -/
theorem runSelector_interactive (input : RunInput) (panes : List TmuxPane)
    (htmux : input.tmuxEnv ≠ []) (hlist : getTmuxPanes input.listing = .ok panes)
    (hn : 0 < panes.length) (hauto : input.autoSelect = false)
    (hscreen : input.screenErr = none) :
    runSelector input =
      match interactivePaneSelector.loop panes
          (interactivePaneSelector.initialIndex panes (getCurrentPaneID input.paneQuery).1)
          input.events with
      | .Returned _ (some err) => .Err err.msg
      | .Returned none none => .Err "Pane selection cancelled".toList
      | .Returned (some selectedPane) none => runSelector.output input.outputFormat selectedPane
      | .Browsing selectedIndex => .Waiting selectedIndex
      | .Panic => .Panic := by
  have hlen : ¬ panes.length = 0 := by omega
  unfold runSelector
  rw [if_neg htmux, hlist]
  simp only [hlen, if_false, hauto, Bool.false_eq_true, interactivePaneSelector, hscreen]

/-- C12: for every snapshot with `n > 0` panes, every cursor and every prior
sequence of navigation inputs, each cancel input (escape, the interrupt key,
`q` or `Q`) ends the loop with no selection and no error; a run in
interactive mode whose events are such a sequence followed by a cancel input
returns the error `Pane selection cancelled`, so the process prints nothing
on standard output and exits with status 1. -/
theorem interactivePaneSelector_cancel (panes : List TmuxPane) (hn : 0 < panes.length)
    (history : List tcell.Event)
    (hnav : ∀ e ∈ history, isMoveBackward e = true ∨ isMoveForward e = true)
    (ev : tcell.Event) (hev : isCancel ev = true) :
    (∀ c : Int, interactivePaneSelector.step panes c ev = .Returned none none) ∧
    (∀ c0 : Int, 0 ≤ c0 → c0 < panes.length →
      interactivePaneSelector.loop panes c0 (history ++ [ev]) = .Returned none none) ∧
    (∀ input : RunInput, input.tmuxEnv ≠ [] → getTmuxPanes input.listing = .ok panes →
      input.autoSelect = false → input.screenErr = none → input.events = history ++ [ev] →
      runSelector input = .Err "Pane selection cancelled".toList ∧
      main input = .Exited none (some "Error: Pane selection cancelled\n".toList) 1) := by
  refine ⟨fun c => interactivePaneSelector.step_cancel panes c ev hev,
    fun c0 h0 h1 => interactivePaneSelector.loop_cancel panes c0 h0 h1 history hnav ev hev, ?_⟩
  intro input htmux hlist hauto hscreen hevents
  have hr := interactivePaneSelector.initialIndex_range panes
    (getCurrentPaneID input.paneQuery).1 hn
  have hrun : runSelector input = .Err "Pane selection cancelled".toList := by
    rw [runSelector_interactive input panes htmux hlist hn hauto hscreen, hevents,
      interactivePaneSelector.loop_cancel panes _ hr.1 hr.2 history hnav ev hev]
  refine ⟨hrun, ?_⟩
  simp only [main, hrun]
  decide

/-- C12, witness: on Scenario A, after the moves down and `k`, the letter `q`
ends the loop with no selection. -/
theorem interactivePaneSelector_cancel_witness :
    ((∀ c : Int, interactivePaneSelector.step scenarioA c (.EventKey .KeyRune 'q')
        = .Returned none none) ∧
      (∀ c0 : Int, 0 ≤ c0 → c0 < scenarioA.length →
        interactivePaneSelector.loop scenarioA c0
          ([.EventKey .KeyDown 'x', .EventKey .KeyRune 'k'] ++ [.EventKey .KeyRune 'q'])
          = .Returned none none) ∧
      (∀ input : RunInput, input.tmuxEnv ≠ [] → getTmuxPanes input.listing = .ok scenarioA →
        input.autoSelect = false → input.screenErr = none →
        input.events
          = [.EventKey .KeyDown 'x', .EventKey .KeyRune 'k'] ++ [.EventKey .KeyRune 'q'] →
        runSelector input = .Err "Pane selection cancelled".toList ∧
        main input = .Exited none (some "Error: Pane selection cancelled\n".toList) 1)) ∧
    main { failedQueryRun with
        paneQuery := .ok "main:0.0\n".toList
        events := [.EventKey .KeyDown 'x', .EventKey .KeyRune 'k', .EventKey .KeyRune 'q'] }
      = .Exited none (some "Error: Pane selection cancelled\n".toList) 1 :=
  ⟨interactivePaneSelector_cancel scenarioA (by decide)
      [.EventKey .KeyDown 'x', .EventKey .KeyRune 'k'] (by decide)
      (.EventKey .KeyRune 'q') (by decide),
    by rfl⟩

/-! ## Inputs the specification does not list -/

/-- C13, as the claim states it, fails: the control-key combination Ctrl-K is
none of the listed move-backward, move-forward, accept or cancel inputs, yet
on Scenario A at cursor 1 it moves the cursor to 0. -/
theorem interactivePaneSelector_unlisted_as_stated_fails :
    isMoveBackward (.EventKey .KeyCtrlK 'k') = false ∧
    isMoveForward (.EventKey .KeyCtrlK 'k') = false ∧
    isAccept (.EventKey .KeyCtrlK 'k') = false ∧
    isCancel (.EventKey .KeyCtrlK 'k') = false ∧
    interactivePaneSelector.step scenarioA 1 (.EventKey .KeyCtrlK 'k') = .Browsing 0 := by
  refine ⟨by decide, by decide, by decide, by decide, by decide⟩

/-- C13, amended: every input event that is none of the listed move-backward,
move-forward, accept or cancel inputs and none of the control-key
combinations Ctrl-K, Ctrl-H, Ctrl-J, Ctrl-L (a terminal-resize event, every
other key, unlisted letters) leaves the loop `Browsing` with the cursor
unchanged; with `n > 0` panes and the cursor `c` in `[0, n)`, Ctrl-K and Ctrl-H
move the cursor to `(c - 1 + n) mod n` and Ctrl-J and Ctrl-L to
`(c + 1) mod n`.  So an event that ends the loop or changes the cursor is a
listed input or one of these four. -/
theorem interactivePaneSelector_unlisted (panes : List TmuxPane) (c : Int)
    (ev : tcell.Event) :
    (isMoveBackward ev = false → isMoveForward ev = false → isAccept ev = false →
      isCancel ev = false → isCtrlMove ev = false →
      interactivePaneSelector.step panes c ev = .Browsing c) ∧
    (0 ≤ c → c < panes.length → ∀ r : Char,
      interactivePaneSelector.step panes c (.EventKey .KeyCtrlK r)
        = .Browsing ((c - 1 + panes.length) % panes.length) ∧
      interactivePaneSelector.step panes c (.EventKey .KeyCtrlH r)
        = .Browsing ((c - 1 + panes.length) % panes.length) ∧
      interactivePaneSelector.step panes c (.EventKey .KeyCtrlJ r)
        = .Browsing ((c + 1) % panes.length) ∧
      interactivePaneSelector.step panes c (.EventKey .KeyCtrlL r)
        = .Browsing ((c + 1) % panes.length)) ∧
    (interactivePaneSelector.step panes c ev ≠ .Browsing c →
      isMoveBackward ev = true ∨ isMoveForward ev = true ∨ isAccept ev = true ∨
        isCancel ev = true ∨ isCtrlMove ev = true) := by
  have h1 : isMoveBackward ev = false → isMoveForward ev = false → isAccept ev = false →
      isCancel ev = false → isCtrlMove ev = false →
      interactivePaneSelector.step panes c ev = .Browsing c := by
    intro hb hf ha hc hk
    cases ev with
    | EventKey key r =>
      cases key <;>
        simp only [isMoveBackward, isMoveForward, isAccept, isCancel, isCtrlMove,
          interactivePaneSelector.step] at hb hf ha hc hk ⊢ <;>
        try exact absurd hb (by decide)
      all_goals try exact absurd hf (by decide)
      all_goals try exact absurd ha (by decide)
      all_goals try exact absurd hc (by decide)
      all_goals try exact absurd hk (by decide)
      simp only [List.mem_cons, List.mem_singleton, List.not_mem_nil, or_false,
        decide_eq_false_iff_not, not_or] at hb hf hc
      obtain ⟨b1, b2, b3, b4, b5, b6, b7, b8⟩ := hb
      obtain ⟨f1, f2, f3, f4, f5, f6, f7, f8⟩ := hf
      obtain ⟨c1, c2⟩ := hc
      simp only [b1, b2, b3, b4, b5, b6, b7, b8, f1, f2, f3, f4, f5, f6, f7, f8, c1, c2,
        or_self, if_false]
    | EventResize => rfl
    | otherEvent => rfl
  refine ⟨h1, ?_, ?_⟩
  · intro h0 hlt r
    have hp := interactivePaneSelector.movePrev_eq panes c h0 hlt
    have hx := interactivePaneSelector.moveNext_eq panes c h0 hlt
    exact ⟨hp, hp, hx, hx⟩
  · intro hne
    by_contra hcon
    simp only [not_or, Bool.not_eq_true] at hcon
    exact hne (h1 hcon.1 hcon.2.1 hcon.2.2.1 hcon.2.2.2.1 hcon.2.2.2.2)

/-! ## A failed current-pane query -/

/-- C14, as the claim states it, fails.  In interactive mode, inside tmux, on
the listing of Scenario A, with a failing current-pane query and the single
event enter, the run prints `main:0.1` and exits with status 0.  In auto mode
with the same failing query and an empty listing the error is that of the
empty listing: the listing is read before the query. -/
theorem runSelector_failed_query_as_stated_fails :
    failedQueryRun.paneQuery = .error ⟨"exit status 1".toList⟩ ∧
    failedQueryRun.autoSelect = false ∧
    main failedQueryRun = .Exited (some (.plain "main:0.1".toList)) none 0 ∧
    main { failedQueryRun with autoSelect := true, listing := .ok [] }
      = .Exited none (some "Error: No tmux panes found\n".toList) 1 := by
  refine ⟨rfl, rfl, by rfl, by rfl⟩

/-- C14, amended: for every run in auto mode in which the current-pane query
fails, the run ends in an error, so the process prints nothing on standard
output and exits with status 1; the error is that of the query when the run is
inside tmux and the listing gave at least one pane (the listing is read
first).  In interactive mode the failure of the query is not checked: the run
goes on as if the query had answered the empty identifier. -/
theorem runSelector_failed_query (input : RunInput) (err : ExecError)
    (hq : input.paneQuery = .error err) :
    (input.autoSelect = true →
      ∃ msg, runSelector input = .Err msg ∧
        main input = .Exited none (some ("Error: ".toList ++ msg ++ ['\n'])) 1) ∧
    (input.autoSelect = true → input.tmuxEnv ≠ [] →
      ∀ panes, getTmuxPanes input.listing = .ok panes → panes ≠ [] →
        runSelector input = .Err ("Failed to get current pane ID: ".toList ++ err.msg)) ∧
    (input.autoSelect = false →
      runSelector input = runSelector { input with paneQuery := .ok [] }) := by
  refine ⟨?_, ?_, ?_⟩
  · intro hauto
    have hmain : ∀ msg, runSelector input = .Err msg →
        main input = .Exited none (some ("Error: ".toList ++ msg ++ ['\n'])) 1 := by
      intro msg h
      simp only [main, h]
    suffices h : ∃ msg, runSelector input = .Err msg by
      obtain ⟨msg, hmsg⟩ := h
      exact ⟨msg, hmsg, hmain msg hmsg⟩
    unfold runSelector
    by_cases htmux : input.tmuxEnv = []
    · rw [if_pos htmux]; exact ⟨_, rfl⟩
    · rw [if_neg htmux]
      cases hl : getTmuxPanes input.listing with
      | error e => exact ⟨_, rfl⟩
      | ok panes =>
        simp only
        by_cases hlen : panes.length = 0
        · rw [if_pos hlen]; exact ⟨_, rfl⟩
        · rw [if_neg hlen, if_pos hauto, hq]
          exact ⟨_, rfl⟩
  · intro hauto htmux panes hl hne
    have hlen : ¬ panes.length = 0 := by
      intro h; exact hne (List.length_eq_zero.mp h)
    unfold runSelector
    rw [if_neg htmux, hl]
    simp only [hlen, if_false, hauto, if_true, hq, getCurrentPaneID]
  · intro hauto
    unfold runSelector
    simp only [hauto, Bool.false_eq_true, if_false, hq, interactivePaneSelector,
      getCurrentPaneID]
    rfl

/-- C14, witness: the run of `failedQueryRun` in auto mode ends in the error of
the query. -/
theorem runSelector_failed_query_witness :
    ((({ failedQueryRun with autoSelect := true } : RunInput).autoSelect = true →
      ∃ msg, runSelector { failedQueryRun with autoSelect := true } = .Err msg ∧
        main { failedQueryRun with autoSelect := true }
          = .Exited none (some ("Error: ".toList ++ msg ++ ['\n'])) 1) ∧
    (({ failedQueryRun with autoSelect := true } : RunInput).autoSelect = true →
      ({ failedQueryRun with autoSelect := true } : RunInput).tmuxEnv ≠ [] →
      ∀ panes, getTmuxPanes ({ failedQueryRun with autoSelect := true } : RunInput).listing
          = .ok panes → panes ≠ [] →
        runSelector { failedQueryRun with autoSelect := true }
          = .Err ("Failed to get current pane ID: ".toList ++ "exit status 1".toList)) ∧
    (({ failedQueryRun with autoSelect := true } : RunInput).autoSelect = false →
      runSelector { failedQueryRun with autoSelect := true }
        = runSelector { { failedQueryRun with autoSelect := true } with paneQuery := .ok [] })) ∧
    main { failedQueryRun with autoSelect := true }
      = .Exited none (some "Error: Failed to get current pane ID: exit status 1\n".toList) 1 :=
  ⟨runSelector_failed_query { failedQueryRun with autoSelect := true }
      ⟨"exit status 1".toList⟩ rfl,
    by rfl⟩

/-! ## The full identifier and lines with more than six fields -/

theorem getTmuxPanes.parseLine_some (line : GoString) (p : TmuxPane)
    (h : getTmuxPanes.parseLine line = some p) :
    6 ≤ (strings.Split line '|').length ∧
      p = paneOfFields coercedTimestamp (strings.Split line '|') := by
  by_cases h6 : (strings.Split line '|').length < 6
  · rw [getTmuxPanes.parseLine_of_lt_six line h6] at h
    exact absurd h (by simp)
  · rw [getTmuxPanes.parseLine_of_six_le line (by omega)] at h
    exact ⟨by omega, (Option.some.inj h).symm⟩

/-- C15: for every listing text, every record `getTmuxPanes` returns has its
fullIdentifier equal to its sessionName, `:`, its windowIndex, `.`, its
paneIndex; and that identifier is the text of the plain output. -/
theorem getTmuxPanes_fullID (output : Except ExecError GoString) (panes : List TmuxPane)
    (h : getTmuxPanes output = .ok panes) :
    (∀ p ∈ panes,
      p.FullID = p.SessionName ++ [':'] ++ p.WindowIndex ++ ['.'] ++ p.PaneIndex) ∧
    (∀ p ∈ panes, runSelector.output "plain".toList p = .Ok (.plain p.FullID)) := by
  refine ⟨?_, fun p _ => rfl⟩
  intro p hp
  cases output with
  | error e => simp [getTmuxPanes] at h
  | ok out =>
    rw [getTmuxPanes_ok] at h
    have e := Except.ok.inj h
    rw [← e, List.mem_filterMap] at hp
    obtain ⟨line, -, hline⟩ := hp
    rw [(getTmuxPanes.parseLine_some line p hline).2]
    rfl

/-- C15, witness: the three records of the listing text of Scenario A. -/
theorem getTmuxPanes_fullID_witness :
    ((∀ p ∈ scenarioA,
        p.FullID = p.SessionName ++ [':'] ++ p.WindowIndex ++ ['.'] ++ p.PaneIndex) ∧
      (∀ p ∈ scenarioA, runSelector.output "plain".toList p = .Ok (.plain p.FullID))) ∧
    (scenarioA.map fun p => p.FullID)
      = ["main:0.0".toList, "main:0.1".toList, "main:1.0".toList] :=
  ⟨getTmuxPanes_fullID
      (.ok "main|0|0|bash|1000|0\nmain|0|1|vim|2000|1\nmain|1|0|bash|500|0\n".toList)
      scenarioA rfl,
    by decide⟩

theorem paneOfFields_take (timestamp : GoString → Nat) (parts : List GoString) :
    paneOfFields timestamp (parts.take 6) = paneOfFields timestamp parts := by
  simp [paneOfFields, List.getD_eq_getElem?_getD, List.getElem?_take]

/-- C20: every line that splits on `|` into more than 6 fields yields a
record, built from its first six fields only (title from field 3, timestamp
from field 4, active flag from field 5); a line with the same first six fields
and other fields after them yields the same record; the acquisition of a text
that holds the line returns the record. -/
theorem getTmuxPanes_extra_fields (line : GoString)
    (h : 6 < (strings.Split line '|').length) :
    getTmuxPanes.parseLine line
      = some (paneOfFields coercedTimestamp ((strings.Split line '|').take 6)) ∧
    (∀ line2 : GoString, 6 < (strings.Split line2 '|').length →
      (strings.Split line2 '|').take 6 = (strings.Split line '|').take 6 →
      getTmuxPanes.parseLine line2 = getTmuxPanes.parseLine line) ∧
    (∀ out : GoString, line ∈ strings.Split (strings.TrimSpace out) '\n' →
      ∃ panes, getTmuxPanes (.ok out) = .ok panes ∧
        paneOfFields coercedTimestamp ((strings.Split line '|').take 6) ∈ panes) := by
  have h0 : getTmuxPanes.parseLine line
      = some (paneOfFields coercedTimestamp ((strings.Split line '|').take 6)) := by
    rw [getTmuxPanes.parseLine_of_six_le line (by omega), paneOfFields_take]
  refine ⟨h0, ?_, ?_⟩
  · intro line2 h2 htake
    rw [h0, getTmuxPanes.parseLine_of_six_le line2 (by omega),
      ← paneOfFields_take _ (strings.Split line2 '|'), htake]
  · intro out hmem
    refine ⟨_, getTmuxPanes_ok out, ?_⟩
    rw [List.mem_filterMap]
    exact ⟨line, hmem, h0⟩

/-- C20, witness: the line of a pane `main:0.1` whose title is `a|b`, with
timestamp 2000 and active flag 1, has 7 fields; its record has the title `a`,
the timestamp 0 (from `b`) and is inactive (from `2000`). -/
theorem getTmuxPanes_extra_fields_witness :
    (getTmuxPanes.parseLine "main|0|1|a|b|2000|1".toList
        = some (paneOfFields coercedTimestamp
            ((strings.Split "main|0|1|a|b|2000|1".toList '|').take 6)) ∧
      (∀ line2 : GoString, 6 < (strings.Split line2 '|').length →
        (strings.Split line2 '|').take 6
          = (strings.Split "main|0|1|a|b|2000|1".toList '|').take 6 →
        getTmuxPanes.parseLine line2 = getTmuxPanes.parseLine "main|0|1|a|b|2000|1".toList) ∧
      (∀ out : GoString,
        "main|0|1|a|b|2000|1".toList ∈ strings.Split (strings.TrimSpace out) '\n' →
        ∃ panes, getTmuxPanes (.ok out) = .ok panes ∧
          paneOfFields coercedTimestamp
            ((strings.Split "main|0|1|a|b|2000|1".toList '|').take 6) ∈ panes)) ∧
    getTmuxPanes (.ok "main|0|1|a|b|2000|1\n".toList)
      = .ok [⟨"main".toList, "0".toList, "1".toList, "a".toList, 0, false,
          "main:0.1".toList⟩] :=
  ⟨getTmuxPanes_extra_fields "main|0|1|a|b|2000|1".toList (by decide), by rfl⟩

/-! ## The shape of the recency scan -/

/-- C16: there is a snapshot and an excluded identifier for which
`findMostRecentPaneIndex` returns an inactive pane whose timestamp is strictly
lower than that of an earlier inactive pane that is not excluded, an active
pane with a still lower timestamp lying between them: inactive with timestamp
1000, active with timestamp 0, inactive with timestamp 5, none excluded,
returns index 2. -/
theorem findMostRecentPaneIndex_regress :
    ∃ (panes : List TmuxPane) (cur : GoString) (i a j : Nat) (pi pa pj : TmuxPane),
      panes[i]? = some pi ∧ panes[a]? = some pa ∧ panes[j]? = some pj ∧
      i < a ∧ a < j ∧
      (∀ p ∈ panes, p.FullID ≠ cur) ∧
      pi.IsActive = false ∧ pa.IsActive = true ∧ pj.IsActive = false ∧
      pa.LastUsed < pj.LastUsed ∧ pj.LastUsed < pi.LastUsed ∧
      findMostRecentPaneIndex panes cur = (j : Int) ∧
      findMostRecentPane panes cur = some pj :=
  ⟨regressSnapshot, "main:2.0".toList, 0, 1, 2,
    ⟨"main".toList, "0".toList, "0".toList, "bash".toList, 1000, false, "main:0.0".toList⟩,
    ⟨"main".toList, "0".toList, "1".toList, "vim".toList, 0, true, "main:0.1".toList⟩,
    ⟨"main".toList, "1".toList, "0".toList, "bash".toList, 5, false, "main:1.0".toList⟩,
    rfl, rfl, rfl, by decide, by decide, by decide, rfl, rfl, rfl, by decide, by decide,
    by decide, by decide⟩

theorem findMostRecentPaneIndex.scan_first_max (cur : GoString) (l : List TmuxPane) :
    ∀ (i bi : Int) (bt : Nat),
      (∀ p ∈ l, p.FullID ≠ cur → p.IsActive = false) →
      (∃ p ∈ l, p.FullID ≠ cur ∧ bt < p.LastUsed) →
      ∃ (k : Nat) (p : TmuxPane),
        findMostRecentPaneIndex.scan cur l i bi bt = i + k ∧ l[k]? = some p ∧
        p.FullID ≠ cur ∧ bt < p.LastUsed ∧
        (∀ q ∈ l, q.FullID ≠ cur → q.LastUsed ≤ p.LastUsed) ∧
        (∀ j q, j < k → l[j]? = some q → q.FullID ≠ cur → q.LastUsed < p.LastUsed) := by
  induction l with
  | nil => intro i bi bt _ h; obtain ⟨p, hp, -⟩ := h; simp at hp
  | cons x rest ih =>
    intro i bi bt hin hex
    have hin2 : ∀ p ∈ rest, p.FullID ≠ cur → p.IsActive = false :=
      fun p hp => hin p (List.mem_cons_of_mem _ hp)
    -- the result of the scan of `rest` lifted to `x :: rest`, when `x` does not beat it
    have lift : ∀ (bi2 : Int) (bt2 : Nat) (k : Nat) (p : TmuxPane),
        findMostRecentPaneIndex.scan cur rest (i + 1) bi2 bt2 = i + 1 + k →
        rest[k]? = some p → p.FullID ≠ cur → bt < p.LastUsed →
        (∀ q ∈ rest, q.FullID ≠ cur → q.LastUsed ≤ p.LastUsed) →
        (∀ j q, j < k → rest[j]? = some q → q.FullID ≠ cur → q.LastUsed < p.LastUsed) →
        (x.FullID ≠ cur → x.LastUsed < p.LastUsed) →
        ∃ (k2 : Nat) (p2 : TmuxPane),
          findMostRecentPaneIndex.scan cur rest (i + 1) bi2 bt2 = i + k2 ∧
          (x :: rest)[k2]? = some p2 ∧ p2.FullID ≠ cur ∧ bt < p2.LastUsed ∧
          (∀ q ∈ x :: rest, q.FullID ≠ cur → q.LastUsed ≤ p2.LastUsed) ∧
          (∀ j q, j < k2 → (x :: rest)[j]? = some q → q.FullID ≠ cur →
            q.LastUsed < p2.LastUsed) := by
      intro bi2 bt2 k p hs hk hne hbt hmax hfirst hx
      refine ⟨k + 1, p, ?_, by simpa using hk, hne, hbt, ?_, ?_⟩
      · rw [hs]; push_cast; ring
      · intro q hq hqne
        rcases List.mem_cons.mp hq with e | hq2
        · subst e; exact Nat.le_of_lt (hx hqne)
        · exact hmax q hq2 hqne
      · intro j q hj hq hqne
        cases j with
        | zero =>
          simp only [List.getElem?_cons_zero, Option.some.injEq] at hq
          subst hq
          exact hx hqne
        | succ j2 =>
          simp only [List.getElem?_cons_succ] at hq
          exact hfirst j2 q (by omega) hq hqne
    simp only [findMostRecentPaneIndex.scan]
    by_cases h1 : x.FullID = cur
    · simp only [h1, if_true]
      have hex2 : ∃ p ∈ rest, p.FullID ≠ cur ∧ bt < p.LastUsed := by
        obtain ⟨p, hp, hne, hlt⟩ := hex
        rcases List.mem_cons.mp hp with e | hp2
        · subst e; exact absurd h1 hne
        · exact ⟨p, hp2, hne, hlt⟩
      obtain ⟨k, p, hs, hk, hne, hbt, hmax, hfirst⟩ := ih (i + 1) bi bt hin2 hex2
      exact lift bi bt k p hs hk hne hbt hmax hfirst (fun hx => absurd h1 hx)
    · simp only [h1, if_false]
      have hxa : x.IsActive = false := hin x (List.mem_cons_self _ _) h1
      by_cases h2 : x.LastUsed > bt
      · have hc : x.IsActive = true ∨ x.LastUsed > bt := Or.inr h2
        simp only [hc, if_true]
        by_cases hbeat : ∃ p ∈ rest, p.FullID ≠ cur ∧ x.LastUsed < p.LastUsed
        · obtain ⟨k, p, hs, hk, hne, hbt, hmax, hfirst⟩ :=
            ih (i + 1) i x.LastUsed hin2 hbeat
          exact lift i x.LastUsed k p hs hk hne (by omega) hmax hfirst (fun _ => hbt)
        · have hle : ∀ p ∈ rest, p.FullID ≠ cur → p.IsActive = false ∧
              p.LastUsed ≤ x.LastUsed := by
            intro p hp hne
            refine ⟨hin2 p hp hne, ?_⟩
            by_contra hcon
            exact hbeat ⟨p, hp, hne, by omega⟩
          rw [findMostRecentPaneIndex.scan_keep cur rest (i + 1) i x.LastUsed hle]
          refine ⟨0, x, by simp, List.getElem?_cons_zero, h1, h2, ?_, ?_⟩
          · intro q hq hqne
            rcases List.mem_cons.mp hq with e | hq2
            · subst e; exact le_refl _
            · exact (hle q hq2 hqne).2
          · intro j q hj; omega
      · have hc : ¬ (x.IsActive = true ∨ x.LastUsed > bt) := by
          rintro (h | h)
          · rw [hxa] at h; exact absurd h (by decide)
          · exact h2 h
        simp only [hc, if_false]
        have hex2 : ∃ p ∈ rest, p.FullID ≠ cur ∧ bt < p.LastUsed := by
          obtain ⟨p, hp, hne, hlt⟩ := hex
          rcases List.mem_cons.mp hp with e | hp2
          · subst e; exact absurd hlt h2
          · exact ⟨p, hp2, hne, hlt⟩
        obtain ⟨k, p, hs, hk, hne, hbt, hmax, hfirst⟩ := ih (i + 1) bi bt hin2 hex2
        exact lift bi bt k p hs hk hne hbt hmax hfirst (fun _ => by omega)

/-- C17: for every snapshot and excluded identifier in which no pane that is
not excluded is active and some pane that is not excluded has a timestamp
greater than 0, `findMostRecentPaneIndex` returns the index `k` of a pane that
is not excluded, whose timestamp is the greatest among the panes that are not
excluded, and before which every pane that is not excluded has a strictly
lower timestamp (ties go to the earliest pane). -/
theorem findMostRecentPaneIndex_first_most_recent (panes : List TmuxPane)
    (currentPaneID : GoString)
    (hinactive : ∀ p ∈ panes, p.FullID ≠ currentPaneID → p.IsActive = false)
    (hsome : ∃ p ∈ panes, p.FullID ≠ currentPaneID ∧ 0 < p.LastUsed) :
    ∃ (k : Nat) (p : TmuxPane),
      findMostRecentPaneIndex panes currentPaneID = (k : Int) ∧ panes[k]? = some p ∧
      p.FullID ≠ currentPaneID ∧
      (∀ q ∈ panes, q.FullID ≠ currentPaneID → q.LastUsed ≤ p.LastUsed) ∧
      (∀ j q, j < k → panes[j]? = some q → q.FullID ≠ currentPaneID →
        q.LastUsed < p.LastUsed) := by
  obtain ⟨k, p, hs, hk, hne, -, hmax, hfirst⟩ :=
    findMostRecentPaneIndex.scan_first_max currentPaneID panes 0 (-1) 0 hinactive hsome
  exact ⟨k, p, by simpa [findMostRecentPaneIndex] using hs, hk, hne, hmax, hfirst⟩

/-- C17, witness: in `tieSnapshot` with the pane `main:1.1` excluded, the
panes at indices 1 and 2 carry the greatest timestamp and index 1 is
returned. -/
theorem findMostRecentPaneIndex_first_most_recent_witness :
    (∃ (k : Nat) (p : TmuxPane),
      findMostRecentPaneIndex tieSnapshot "main:1.1".toList = (k : Int) ∧
      tieSnapshot[k]? = some p ∧ p.FullID ≠ "main:1.1".toList ∧
      (∀ q ∈ tieSnapshot, q.FullID ≠ "main:1.1".toList → q.LastUsed ≤ p.LastUsed) ∧
      (∀ j q, j < k → tieSnapshot[j]? = some q → q.FullID ≠ "main:1.1".toList →
        q.LastUsed < p.LastUsed)) ∧
    findMostRecentPaneIndex tieSnapshot "main:1.1".toList = 1 :=
  ⟨findMostRecentPaneIndex_first_most_recent tieSnapshot "main:1.1".toList
      (by decide) (by decide),
    by decide⟩

/-! ## The two selectors -/

theorem findMostRecentPane.scan_pair (cur : GoString) (l : List TmuxPane) :
    ∀ (i bi : Int) (bt : Nat) (bp : Option TmuxPane),
      (findMostRecentPaneIndex.scan cur l i bi bt = bi ∧
        findMostRecentPane.scan cur l bp bt = bp) ∨
      (∃ (k : Nat) (p : TmuxPane),
        findMostRecentPaneIndex.scan cur l i bi bt = i + k ∧ l[k]? = some p ∧
        findMostRecentPane.scan cur l bp bt = some p ∧ p.FullID ≠ cur) := by
  induction l with
  | nil => intro i bi bt bp; exact Or.inl ⟨rfl, rfl⟩
  | cons x rest ih =>
    intro i bi bt bp
    have lift : ∀ (bi2 : Int) (bt2 : Nat) (bp2 : Option TmuxPane),
        (∃ (k : Nat) (p : TmuxPane),
          findMostRecentPaneIndex.scan cur rest (i + 1) bi2 bt2 = i + 1 + k ∧
          rest[k]? = some p ∧
          findMostRecentPane.scan cur rest bp2 bt2 = some p ∧ p.FullID ≠ cur) →
        ∃ (k : Nat) (p : TmuxPane),
          findMostRecentPaneIndex.scan cur rest (i + 1) bi2 bt2 = i + k ∧
          (x :: rest)[k]? = some p ∧
          findMostRecentPane.scan cur rest bp2 bt2 = some p ∧ p.FullID ≠ cur := by
      rintro bi2 bt2 bp2 ⟨k, p, hs, hk, hp, hne⟩
      exact ⟨k + 1, p, by rw [hs]; push_cast; ring, by simpa using hk, hp, hne⟩
    simp only [findMostRecentPaneIndex.scan, findMostRecentPane.scan]
    by_cases h1 : x.FullID = cur
    · simp only [h1, if_true]
      rcases ih (i + 1) bi bt bp with h | h
      · exact Or.inl h
      · exact Or.inr (lift bi bt bp h)
    · simp only [h1, if_false]
      by_cases h2 : x.IsActive = true ∨ x.LastUsed > bt
      · simp only [h2, if_true]
        rcases ih (i + 1) i x.LastUsed (some x) with h | h
        · exact Or.inr ⟨0, x, by simpa using h.1, List.getElem?_cons_zero, h.2, h1⟩
        · exact Or.inr (lift i x.LastUsed (some x) h)
      · simp only [h2, if_false]
        rcases ih (i + 1) bi bt bp with h | h
        · exact Or.inl h
        · exact Or.inr (lift bi bt bp h)

/-- The two selectors, side by side: either both return none, or they return
an index inside the snapshot and the pane at that index, which is not the
excluded one. -/
theorem findMostRecentPane.pair (panes : List TmuxPane) (cur : GoString) :
    (findMostRecentPaneIndex panes cur = -1 ∧ findMostRecentPane panes cur = none) ∨
    (∃ (k : Nat) (p : TmuxPane),
      findMostRecentPaneIndex panes cur = (k : Int) ∧ k < panes.length ∧
      panes[k]? = some p ∧ findMostRecentPane panes cur = some p ∧ p.FullID ≠ cur) := by
  rcases findMostRecentPane.scan_pair cur panes 0 (-1) 0 none with h | ⟨k, p, hs, hk, hp, hne⟩
  · exact Or.inl h
  · refine Or.inr ⟨k, p, by simpa [findMostRecentPaneIndex] using hs, ?_, hk, hp, hne⟩
    by_contra hcon
    rw [List.getElem?_eq_none (by omega)] at hk
    exact absurd hk (by simp)

/-- C18: for every snapshot and every current-pane identifier,
`findMostRecentPane` returns nil exactly when `findMostRecentPaneIndex`
returns `-1`, and otherwise the index `i` that `findMostRecentPaneIndex`
returns lies in the snapshot and `findMostRecentPane` returns the record
`panes[i]`. -/
theorem findMostRecentPane_eq_index (panes : List TmuxPane) (currentPaneID : GoString) :
    (findMostRecentPane panes currentPaneID = none ↔
      findMostRecentPaneIndex panes currentPaneID = -1) ∧
    (findMostRecentPaneIndex panes currentPaneID ≠ -1 →
      0 ≤ findMostRecentPaneIndex panes currentPaneID ∧
      findMostRecentPaneIndex panes currentPaneID < panes.length ∧
      (findMostRecentPane panes currentPaneID).isSome = true ∧
      findMostRecentPane panes currentPaneID
        = panes[(findMostRecentPaneIndex panes currentPaneID).toNat]?) := by
  rcases findMostRecentPane.pair panes currentPaneID with ⟨h1, h2⟩ | ⟨k, p, hk, hlt, hget, hp, -⟩
  · rw [h1, h2]
    simp
  · rw [hk, hp, ← hget]
    refine ⟨?_, ?_⟩
    · constructor
      · intro h; rw [hget] at h; exact absurd h (by simp)
      · intro h; omega
    · intro _
      refine ⟨by omega, by exact_mod_cast hlt, ?_, ?_⟩
      · rw [hget]; rfl
      · simp

/-- C19: for every snapshot and every current-pane identifier, whenever
`findMostRecentPaneIndex` returns an index `i` other than `-1`, `i` lies in
`[0, len(panes))` and `panes[i]` has a full identifier other than the
current-pane identifier; and the record `findMostRecentPane` returns, if any,
is an element of the snapshot with a full identifier other than it. -/
theorem findMostRecentPaneIndex_not_current (panes : List TmuxPane)
    (currentPaneID : GoString) :
    (findMostRecentPaneIndex panes currentPaneID ≠ -1 →
      0 ≤ findMostRecentPaneIndex panes currentPaneID ∧
      findMostRecentPaneIndex panes currentPaneID < panes.length ∧
      ∃ p, panes[(findMostRecentPaneIndex panes currentPaneID).toNat]? = some p ∧
        p.FullID ≠ currentPaneID) ∧
    (∀ p, findMostRecentPane panes currentPaneID = some p →
      p ∈ panes ∧ p.FullID ≠ currentPaneID) := by
  rcases findMostRecentPane.pair panes currentPaneID with
    ⟨h1, h2⟩ | ⟨k, p, hk, hlt, hget, hp, hne⟩
  · refine ⟨fun h => absurd h1 h, ?_⟩
    intro p hp
    rw [h2] at hp
    exact absurd hp (by simp)
  · refine ⟨?_, ?_⟩
    · intro _
      rw [hk]
      exact ⟨by omega, by exact_mod_cast hlt, p, by simpa using hget, hne⟩
    · intro q hq
      rw [hp] at hq
      have e := Option.some.inj hq
      subst e
      exact ⟨List.getElem?_mem hget, hne⟩

end TmuxSelector
